import Mathlib

/-! AOI core (`src/aoi.h`): a shallow embedding

The C++ class `AOI` keeps a registry `unit_map_` from integer ids to heap-allocated `Unit`
objects.  Every `Unit` carries an `unordered_set<Unit*>` of the peers it is subscribed to, and
two optional callbacks.  The notification primitives `NotifyEnter`, `NotifyLeave`, `NotifyAll`
walk a set of peers, call callbacks and edit the subscribe sets.

Modelling decisions

* A `Unit*` is an address (`UnitPtr`, a natural number, `0` being `nullptr`); the objects live in
  an explicit heap `UnitPtr → Option Unit`.  Dereferencing an address that holds no object is
  reported as `Fault.invalid_pointer`.
* An `unordered_set<Unit*>` is a duplicate-free list; the list order is the order in which a
  range-`for` visits the elements.  Every statement about a resulting set is phrased through
  membership, so it holds for whichever order the hash table produces.
* A `float` is `FloatVal`: NaN, the two infinities, or a rational number.  The code only ever
  compares floats with `<=`, which is modelled by `FloatVal.le`.
* A callback is either empty or a host function.  Calling a host function is recorded in the
  `trace` of the state (owner, which callback, both arguments); calling an empty
  `std::function` is `Fault.bad_function_call`.  Host functions are assumed not to re-enter
  the AOI object.
* `assert` is active (debug build): a failed assertion is `Fault.assertion`.
* `unit_map_` is a function from ids to optional addresses; `unit_map_[id]` on a missing id
  enters `id` with the value `nullptr`, as `operator[]` does.  `new Unit` returns the address
  `brk`, which then moves up by one.
* The pure virtual `FindNearbyUnit(Unit*, float)` is a parameter of the id-based query.
-/

/-- Address of a `Unit` object (`Unit*`); `0` is `nullptr`. -/
abbrev UnitPtr := Nat

/-- Value of a C++ `float`, as far as `<=` can tell values apart. -/
inductive FloatVal where
  | nan : FloatVal
  | negInf : FloatVal
  | finite (q : ℚ) : FloatVal
  | posInf : FloatVal
  deriving DecidableEq

namespace FloatVal

/-- The comparison `a <= b` of two floats (false as soon as one side is NaN). -/
def le : FloatVal → FloatVal → Bool
  | nan, _ => false
  | _, nan => false
  | negInf, _ => true
  | _, posInf => true
  | finite a, finite b => decide (a ≤ b)
  | finite _, negInf => false
  | posInf, negInf => false
  | posInf, finite _ => false

/-- The comparison `a < b` of two floats (false as soon as one side is NaN). -/
def lt : FloatVal → FloatVal → Bool
  | nan, _ => false
  | _, nan => false
  | negInf, negInf => false
  | negInf, _ => true
  | posInf, _ => false
  | finite _, negInf => false
  | finite a, finite b => decide (a < b)
  | finite _, posInf => true

/-- The float `0`. -/
def zero : FloatVal := finite 0

end FloatVal

/-- What a failing run ends with. -/
inductive Fault where
  | assertion : Fault
  | bad_function_call : Fault
  | invalid_pointer : Fault
  deriving DecidableEq

/-- A `std::function<void(int, int)>`: empty (built from `nullptr`) or a host function. -/
inductive Callback where
  | empty : Callback
  | host : Callback
  deriving DecidableEq

/-- Which of the two callback fields of a unit. -/
inductive CallbackKind where
  | enter : CallbackKind
  | leave : CallbackKind
  deriving DecidableEq

/-- One callback invocation: the unit whose field was called, the field, and the arguments. -/
structure Invocation where
  owner : UnitPtr
  kind : CallbackKind
  self_id : Int
  other_id : Int
  deriving DecidableEq

/-- An `unordered_set<Unit*>`: the elements in iteration order, without repetition. -/
structure UnitSet where
  elems : List UnitPtr
  nodup : elems.Nodup

namespace UnitSet

instance : DecidableEq UnitSet := fun s t =>
  decidable_of_iff (s.elems = t.elems) (by cases s; cases t; simp)

instance : Membership UnitPtr UnitSet := ⟨fun s p => p ∈ s.elems⟩

instance (p : UnitPtr) (s : UnitSet) : Decidable (p ∈ s) :=
  inferInstanceAs (Decidable (p ∈ s.elems))

/-- The default-constructed, empty set (`UnitSet res;`). -/
def empty : UnitSet := ⟨[], List.nodup_nil⟩

/-- The test `other.find(unit) != other.end()`. -/
def contains (s : UnitSet) (p : UnitPtr) : Bool := s.elems.contains p

/-- The call `s.insert(p)`: nothing happens when `p` is already an element. -/
def insert (s : UnitSet) (p : UnitPtr) : UnitSet := ⟨List.insert p s.elems, s.nodup.insert⟩

/-- The call `s.erase(p)`. -/
def erase (s : UnitSet) (p : UnitPtr) : UnitSet := ⟨s.elems.erase p, s.nodup.erase p⟩

end UnitSet

namespace AOI

/-- The record `AOI::Unit`. -/
structure Unit where
  id : Int
  x : FloatVal
  y : FloatVal
  enter_callback : Callback
  leave_callback : Callback
  subscribe_set : UnitSet
  deriving DecidableEq

/-- The five-argument constructor of `Unit`: the subscribe set starts empty. -/
def Unit.new (id_ : Int) (x_ y_ : FloatVal) (enter_callback_ leave_callback_ : Callback) : Unit :=
  ⟨id_, x_, y_, enter_callback_, leave_callback_, UnitSet.empty⟩

/-- The method `Unit::Subscribe`. -/
def Unit.Subscribe (u : Unit) (other : UnitPtr) : Unit :=
  { u with subscribe_set := u.subscribe_set.insert other }

/-- The method `Unit::UnSubscribe`. -/
def Unit.UnSubscribe (u : Unit) (other : UnitPtr) : Unit :=
  { u with subscribe_set := u.subscribe_set.erase other }

end AOI

/-- State of an `AOI` object together with the `Unit` objects it points to and the record of
callback invocations made so far.  The field `brk` is the address the next `new Unit` returns. -/
structure AOI where
  width_ : FloatVal
  height_ : FloatVal
  visible_range_ : FloatVal
  unit_map_ : Int → Option UnitPtr
  heap : UnitPtr → Option AOI.Unit
  brk : UnitPtr
  trace : List Invocation

namespace AOI

/-- The constructor `AOI(width, height, visible_range)`: no unit, nothing allocated. -/
def init (width height visible_range : FloatVal) : AOI :=
  ⟨width, height, visible_range, fun _ => none, fun _ => none, 1, []⟩

/-- Read the object behind a `Unit*`. -/
def deref (a : AOI) (p : UnitPtr) : Except Fault Unit :=
  match a.heap p with
  | some u => .ok u
  | none => .error .invalid_pointer

/-- Write the object behind a `Unit*`. -/
def store (a : AOI) (p : UnitPtr) (u : Unit) : AOI :=
  { a with heap := fun q => if q = p then some u else a.heap q }

/-- Call a `std::function` field of the unit at `owner` with two integers. -/
def invoke (a : AOI) (owner : UnitPtr) (kind : CallbackKind) (f : Callback)
    (self_id other_id : Int) : Except Fault AOI :=
  match f with
  | .host => .ok { a with trace := a.trace ++ [⟨owner, kind, self_id, other_id⟩] }
  | .empty => .error .bad_function_call

/-- One round of the loop in `NotifyEnter`, statement by statement. -/
def enterBody (unit : UnitPtr) (a : AOI) (other : UnitPtr) : Except Fault AOI := do
  -- other->enter_callback(other->id, unit->id);
  let o ← a.deref other
  let u ← a.deref unit
  let a ← a.invoke other .enter o.enter_callback o.id u.id
  -- other->Subscribe(unit);
  let o ← a.deref other
  let a := a.store other (o.Subscribe unit)
  -- unit->enter_callback(unit->id, other->id);
  let u ← a.deref unit
  let o ← a.deref other
  let a ← a.invoke unit .enter u.enter_callback u.id o.id
  -- unit->Subscribe(other);
  let u ← a.deref unit
  pure (a.store unit (u.Subscribe other))

/-- The method `AOI::NotifyEnter`. -/
def NotifyEnter (a : AOI) (unit : UnitPtr) (enter_set : UnitSet) : Except Fault AOI :=
  enter_set.elems.foldlM (enterBody unit) a

/-- One round of the loop in `NotifyLeave`, statement by statement. -/
def leaveBody (unit : UnitPtr) (a : AOI) (other : UnitPtr) : Except Fault AOI := do
  -- other->leave_callback(other->id, unit->id);
  let o ← a.deref other
  let u ← a.deref unit
  let a ← a.invoke other .leave o.leave_callback o.id u.id
  -- other->UnSubscribe(unit);
  let o ← a.deref other
  pure (a.store other (o.UnSubscribe unit))

/-- The method `AOI::NotifyLeave`. -/
def NotifyLeave (a : AOI) (unit : UnitPtr) (leave_set : UnitSet) : Except Fault AOI :=
  leave_set.elems.foldlM (leaveBody unit) a

/-- The method `AOI::NotifyAll`. -/
def NotifyAll (a : AOI) (unit : UnitPtr) (enter_set leave_set : UnitSet) : Except Fault AOI := do
  let a ← a.NotifyEnter unit enter_set
  a.NotifyLeave unit leave_set

/-- The call `unit_map_.insert(std::pair(id, unit))`: an existing entry is kept. -/
def map_insert (m : Int → Option UnitPtr) (id : Int) (unit : UnitPtr) : Int → Option UnitPtr :=
  match m id with
  | some _ => m
  | none => fun k => if k = id then some unit else m k

/-- The call `unit_map_.erase(id)`. -/
def map_erase (m : Int → Option UnitPtr) (id : Int) : Int → Option UnitPtr :=
  fun k => if k = id then none else m k

/-- The expression `unit_map_[id]`: a missing key is first entered with the value `nullptr`. -/
def map_index (m : Int → Option UnitPtr) (id : Int) : (Int → Option UnitPtr) × UnitPtr :=
  match m id with
  | some p => (m, p)
  | none => (fun k => if k = id then some 0 else m k, 0)

/-- The method `AOI::AddUnit` (base class). -/
def AddUnit (a : AOI) (id : Int) (x y : FloatVal) (enter_callback leave_callback : Callback) :
    Except Fault (AOI × UnitPtr) :=
  -- assert(x <= width_ && y <= height_);
  if !(x.le a.width_ && y.le a.height_) then .error .assertion
  -- assert(unit_map_.find(id) == unit_map_.end());
  else if (a.unit_map_ id).isSome then .error .assertion
  else
    -- Unit* unit = new Unit(id, x, y, enter_callback, leave_callback);
    let unit := a.brk
    let a := { a.store unit (Unit.new id x y enter_callback leave_callback) with
               brk := a.brk + 1 }
    -- unit_map_.insert(std::pair(unit->id, unit)); return unit;
    .ok ({ a with unit_map_ := map_insert a.unit_map_ id unit }, unit)

/-- The method `AOI::UpdateUnit` (base class): two assertions and nothing else. -/
def UpdateUnit (a : AOI) (id : Int) (x y : FloatVal) : Except Fault AOI :=
  let _ := id
  -- assert(x <= width_);
  if !(x.le a.width_) then .error .assertion
  -- assert(y <= width_);
  else if !(y.le a.width_) then .error .assertion
  else .ok a

/-- The method `AOI::RemoveUnit` (base class). -/
def RemoveUnit (a : AOI) (id : Int) : Except Fault AOI :=
  -- Unit* unit = unit_map_[id];
  let (m, unit) := map_index a.unit_map_ id
  -- unit_map_.erase(id);
  let a := { a with unit_map_ := map_erase m id }
  -- delete unit;
  if unit = 0 then .ok a
  else match a.heap unit with
    | some _ => .ok { a with heap := fun q => if q = unit then none else a.heap q }
    | none => .error .invalid_pointer

/-- The method `AOI::get_unit`; `unit_map_` is `mutable`, so the state is returned as well. -/
def get_unit (a : AOI) (id : Int) : AOI × UnitPtr :=
  let (m, unit) := map_index a.unit_map_ id
  ({ a with unit_map_ := m }, unit)

/-- The method `AOI::Intersection`. -/
def Intersection (set other : UnitSet) : UnitSet :=
  set.elems.foldl (fun res unit => if other.contains unit then res.insert unit else res)
    UnitSet.empty

/-- The method `AOI::Difference`. -/
def Difference (set other : UnitSet) : UnitSet :=
  set.elems.foldl (fun res unit => if other.contains unit then res else res.insert unit)
    UnitSet.empty

end AOI

/-- An `unordered_set<int>`: the elements in iteration order, without repetition. -/
structure IdSet where
  elems : List Int
  nodup : elems.Nodup

namespace IdSet

instance : Membership Int IdSet := ⟨fun s i => i ∈ s.elems⟩

instance (i : Int) (s : IdSet) : Decidable (i ∈ s) :=
  inferInstanceAs (Decidable (i ∈ s.elems))

/-- The default-constructed, empty set (`std::unordered_set<int> id_set;`). -/
def empty : IdSet := ⟨[], List.nodup_nil⟩

/-- The call `id_set.insert(i)`. -/
def insert (s : IdSet) (i : Int) : IdSet := ⟨List.insert i s.elems, s.nodup.insert⟩

end IdSet

namespace AOI

/-- One round of the loop in `FindNearbyUnit(int, float)`: `id_set.insert(unit->id)`. -/
def collectId (a : AOI) (id_set : IdSet) (unit : UnitPtr) : Except Fault IdSet := do
  let u ← a.deref unit
  pure (id_set.insert u.id)

/-- The public method `AOI::FindNearbyUnit(int, float)`.  The pure virtual overload
`FindNearbyUnit(Unit*, float)` it calls is the parameter `backend`, which sees the state and
either returns a set of units or faults. -/
def FindNearbyUnit (backend : AOI → UnitPtr → FloatVal → Except Fault UnitSet)
    (a : AOI) (id : Int) (range : FloatVal) : Except Fault (AOI × IdSet) := do
  -- Unit* unit = get_unit(id);
  let (a, unit) := a.get_unit id
  -- UnitSet unit_set = FindNearbyUnit(unit, range);
  let unit_set ← backend a unit range
  -- std::unordered_set<int> id_set; for (const auto& unit : unit_set) ...
  let id_set ← unit_set.elems.foldlM (collectId a) IdSet.empty
  pure (a, id_set)

end AOI

/-! ## Observations of a state, and the scenario of the specification -/

namespace AOI

/-- The subscribe set of the unit at `p`; empty when no object lives there. -/
def subs (a : AOI) (p : UnitPtr) : UnitSet :=
  match a.heap p with
  | some u => u.subscribe_set
  | none => UnitSet.empty

/-- The id of the unit at `p`; `0` when no object lives there. -/
def idOf (a : AOI) (p : UnitPtr) : Int :=
  match a.heap p with
  | some u => u.id
  | none => 0

/-- A unit lives at `p` and its `enter_callback` is not empty. -/
def hasEnter (a : AOI) (p : UnitPtr) : Bool :=
  match a.heap p with
  | some u => decide (u.enter_callback = Callback.host)
  | none => false

/-- A unit lives at `p` and its `leave_callback` is not empty. -/
def hasLeave (a : AOI) (p : UnitPtr) : Bool :=
  match a.heap p with
  | some u => decide (u.leave_callback = Callback.host)
  | none => false

/-- A unit lives at `p`. -/
def live (a : AOI) (p : UnitPtr) : Bool := (a.heap p).isSome

/-- A unit with its subscribe set blanked out. -/
def Unit.clear (u : Unit) : Unit := { u with subscribe_set := UnitSet.empty }

/-- What the notification primitives never write: the world size, the registry, the allocator,
and every field of every unit except `subscribe_set`. -/
def skeleton (a : AOI) : AOI :=
  { a with heap := fun q => (a.heap q).map Unit.clear, trace := [] }

/-- The invocations `NotifyEnter(unit, enter_set)` makes for the peer `p`, in order. -/
def enterCalls (a : AOI) (unit p : UnitPtr) : List Invocation :=
  [⟨p, .enter, a.idOf p, a.idOf unit⟩, ⟨unit, .enter, a.idOf unit, a.idOf p⟩]

/-- The invocation `NotifyLeave(unit, leave_set)` makes for the peer `p`. -/
def leaveCall (a : AOI) (unit p : UnitPtr) : Invocation :=
  ⟨p, .leave, a.idOf p, a.idOf unit⟩

/-- The world of the scenario: 100 by 100, visible range 10, no unit yet. -/
def scene0 : AOI := { init (.finite 100) (.finite 100) (.finite 10) with brk := 16 }

/-- The scenario: unit 1 added at (0,0), then unit 2 at (5,0), both with callbacks.  They are
allocated at the addresses 16 and 17. -/
def scene : AOI :=
  match scene0.AddUnit 1 (.finite 0) (.finite 0) .host .host with
  | .error _ => scene0
  | .ok (a, _) =>
    match a.AddUnit 2 (.finite 5) (.finite 0) .host .host with
    | .error _ => scene0
    | .ok (b, _) => b

/-- The set holding only the address of unit 2 of the scenario. -/
def only17 : UnitSet := ⟨[17], by decide⟩

/-- The scenario after unit 2 entered the sight of unit 1: `NotifyEnter(unit 1, {unit 2})`. -/
def scene_met : AOI :=
  match scene.NotifyEnter 16 only17 with
  | .error _ => scene
  | .ok b => b

/-- The scenario after unit 2 moved out of range and the diff protocol ran for unit 1 with an
empty nearby-set: `NotifyAll(unit 1, Difference({}, old), Difference(old, {}))`. -/
def scene_left : AOI :=
  match scene_met.NotifyAll 16 (Difference UnitSet.empty (scene_met.subs 16))
      (Difference (scene_met.subs 16) UnitSet.empty) with
  | .error _ => scene_met
  | .ok b => b

/-- A call of the registry interface by the host. -/
inductive RegCall where
  | add (id : Int) (x y : FloatVal) (enter_callback leave_callback : Callback) : RegCall
  | remove (id : Int) : RegCall

/-- The id a registry call is about. -/
def RegCall.id : RegCall → Int
  | .add id _ _ _ _ => id
  | .remove id => id

/-- Make one registry call; the pointer `AddUnit` returns is dropped. -/
def call (a : AOI) : RegCall → Except Fault AOI
  | .add id x y enter_callback leave_callback =>
    match a.AddUnit id x y enter_callback leave_callback with
    | .ok (b, _) => .ok b
    | .error e => .error e
  | .remove id => a.RemoveUnit id

/-- Make a sequence of registry calls, stopping at the first fault. -/
def calls (a : AOI) (cs : List RegCall) : Except Fault AOI := cs.foldlM call a

/-- A unit lives at `p` and the registry maps its id to `p`. -/
def registered (a : AOI) (p : UnitPtr) : Bool :=
  match a.heap p with
  | some u => decide (a.unit_map_ u.id = some p)
  | none => false

/-- How registry, heap and allocator fit together in a state built by registry calls. -/
structure RegistryInv (a : AOI) : Prop where
  brk_pos : a.brk ≠ 0
  fresh : ∀ p, a.brk ≤ p → a.heap p = none
  null : a.heap 0 = none
  below : ∀ id p, a.unit_map_ id = some p → p < a.brk
  entry_id : ∀ id p u, a.unit_map_ id = some p → a.heap p = some u → u.id = id
  reg : ∀ p u, a.heap p = some u → a.unit_map_ u.id = some p

/-- The scenario with a third unit, id 3 at (9,9), with callbacks; it is allocated at 18. -/
def scene3 : AOI :=
  match scene.AddUnit 3 (.finite 9) (.finite 9) .host .host with
  | .error _ => scene
  | .ok (b, _) => b

/-- The scenario with a third unit, id 3 at (9,9), whose two callbacks are empty; it is
allocated at 18. -/
def scene_mute : AOI :=
  match scene.AddUnit 3 (.finite 9) (.finite 9) .empty .empty with
  | .error _ => scene
  | .ok (b, _) => b

/-- The three-unit scenario after `NotifyAll(unit 1, {unit 2, unit 3}, {})`, the peers being
visited in the order 17, 18. -/
def scene3_met : AOI :=
  match scene3.NotifyAll 16 ⟨[17, 18], by decide⟩ UnitSet.empty with
  | .error _ => scene3
  | .ok b => b

/-- The set holding only the address 18. -/
def only18 : UnitSet := ⟨[18], by decide⟩

/-- The addresses 17 and 18, visited in this order. -/
def set_17_18 : UnitSet := ⟨[17, 18], by decide⟩

/-- The addresses 17 and 18, visited in the other order. -/
def set_18_17 : UnitSet := ⟨[18, 17], by decide⟩

/-- A backend that finds nothing, whatever it is asked. -/
def backend_none : AOI → UnitPtr → FloatVal → Except Fault UnitSet :=
  fun _ _ _ => .ok UnitSet.empty

/-- A backend that returns unit 2 of the scenario when asked about unit 1, and nothing
otherwise. -/
def backend_scene : AOI → UnitPtr → FloatVal → Except Fault UnitSet :=
  fun _ unit _ => if unit = 16 then .ok only17 else .ok UnitSet.empty

/-- An empty 100 by 100 world as the constructor leaves it. -/
def world0 : AOI := init (.finite 100) (.finite 100) (.finite 10)

/-- Four registry calls: add units 1 and 2, remove unit 1, add a unit 1 again. -/
def demo_calls : List RegCall :=
  [.add 1 (.finite 0) (.finite 0) .host .host, .add 2 (.finite 5) (.finite 0) .host .host,
    .remove 1, .add 1 (.finite 7) (.finite 7) .host .host]

/-- The empty world after `demo_calls`. -/
def world_demo : AOI :=
  match world0.calls demo_calls with
  | .error _ => world0
  | .ok b => b

/-- Two registry calls that do not mention id 1: add unit 2, then remove it. -/
def other_calls : List RegCall :=
  [.add 2 (.finite 5) (.finite 0) .host .host, .remove 2]

/-- The empty world after `AddUnit(1, 0, 0, ...)`. -/
def world_one : AOI :=
  match world0.AddUnit 1 (.finite 0) (.finite 0) .host .host with
  | .error _ => world0
  | .ok (b, _) => b

/-- The world `world_one` after `other_calls`. -/
def world_one_later : AOI :=
  match world_one.calls other_calls with
  | .error _ => world_one
  | .ok b => b

/-- A world 100 wide and 50 high holding unit 1 at (0,0), allocated at the address 1. -/
def wide_world : AOI :=
  match (init (.finite 100) (.finite 50) (.finite 10)).AddUnit 1 (.finite 0) (.finite 0)
      .host .host with
  | .error _ => init (.finite 100) (.finite 50) (.finite 10)
  | .ok (b, _) => b

/-- A world 50 wide and 100 high holding unit 1 at (0,0), allocated at the address 1. -/
def tall_world : AOI :=
  match (init (.finite 50) (.finite 100) (.finite 10)).AddUnit 1 (.finite 0) (.finite 0)
      .host .host with
  | .error _ => init (.finite 50) (.finite 100) (.finite 10)
  | .ok (b, _) => b

/-- A backend that returns the address 17 whatever it is asked. -/
def backend_17 : AOI → UnitPtr → FloatVal → Except Fault UnitSet :=
  fun _ _ _ => .ok only17

end AOI

/-! ## Sets -/

namespace UnitSet

theorem mem_def (s : UnitSet) (p : UnitPtr) : p ∈ s ↔ p ∈ s.elems := Iff.rfl

@[simp] theorem not_mem_empty (p : UnitPtr) : ¬ p ∈ UnitSet.empty := by
  simp [mem_def, UnitSet.empty]

@[simp] theorem mem_insert (s : UnitSet) (p q : UnitPtr) : q ∈ s.insert p ↔ q = p ∨ q ∈ s := by
  simp [mem_def, UnitSet.insert]

@[simp] theorem mem_erase (s : UnitSet) (p q : UnitPtr) : q ∈ s.erase p ↔ q ≠ p ∧ q ∈ s := by
  simp [mem_def, UnitSet.erase, s.nodup.mem_erase_iff]

@[simp] theorem contains_iff (s : UnitSet) (p : UnitPtr) : s.contains p = true ↔ p ∈ s := by
  simp [mem_def, UnitSet.contains]

end UnitSet

namespace AOI

theorem mem_foldl_difference (other : UnitSet) (p : UnitPtr) (l : List UnitPtr) :
    ∀ res : UnitSet,
      p ∈ l.foldl (fun res unit => if other.contains unit then res else res.insert unit) res ↔
        p ∈ res ∨ (p ∈ l ∧ ¬ p ∈ other) := by
  induction l with
  | nil => intro res; simp
  | cons x xs ih =>
    intro res
    rw [List.foldl_cons, ih]
    by_cases hx : x ∈ other
    · have hc : other.contains x = true := (UnitSet.contains_iff other x).2 hx
      simp only [hc, if_true, List.mem_cons]
      constructor
      · rintro (h | ⟨h, hn⟩)
        · exact Or.inl h
        · exact Or.inr ⟨Or.inr h, hn⟩
      · rintro (h | ⟨h | h, hn⟩)
        · exact Or.inl h
        · exact absurd (h ▸ hx) hn
        · exact Or.inr ⟨h, hn⟩
    · have hc : other.contains x = false := by
        rw [← Bool.not_eq_true, UnitSet.contains_iff]; exact hx
      simp only [hc, Bool.false_eq_true, if_false, UnitSet.mem_insert, List.mem_cons]
      constructor
      · rintro ((h | h) | ⟨h, hn⟩)
        · exact Or.inr ⟨Or.inl h, h ▸ hx⟩
        · exact Or.inl h
        · exact Or.inr ⟨Or.inr h, hn⟩
      · rintro (h | ⟨h | h, hn⟩)
        · exact Or.inl (Or.inr h)
        · exact Or.inl (Or.inl h)
        · exact Or.inr ⟨h, hn⟩

theorem mem_foldl_intersection (other : UnitSet) (p : UnitPtr) (l : List UnitPtr) :
    ∀ res : UnitSet,
      p ∈ l.foldl (fun res unit => if other.contains unit then res.insert unit else res) res ↔
        p ∈ res ∨ (p ∈ l ∧ p ∈ other) := by
  induction l with
  | nil => intro res; simp
  | cons x xs ih =>
    intro res
    rw [List.foldl_cons, ih]
    by_cases hx : x ∈ other
    · have hc : other.contains x = true := (UnitSet.contains_iff other x).2 hx
      simp only [hc, if_true, UnitSet.mem_insert, List.mem_cons]
      constructor
      · rintro ((h | h) | ⟨h, hn⟩)
        · exact Or.inr ⟨Or.inl h, h ▸ hx⟩
        · exact Or.inl h
        · exact Or.inr ⟨Or.inr h, hn⟩
      · rintro (h | ⟨h | h, hn⟩)
        · exact Or.inl (Or.inr h)
        · exact Or.inl (Or.inl h)
        · exact Or.inr ⟨h, hn⟩
    · have hc : other.contains x = false := by
        rw [← Bool.not_eq_true, UnitSet.contains_iff]; exact hx
      simp only [hc, Bool.false_eq_true, if_false, List.mem_cons]
      constructor
      · rintro (h | ⟨h, hn⟩)
        · exact Or.inl h
        · exact Or.inr ⟨Or.inr h, hn⟩
      · rintro (h | ⟨h | h, hn⟩)
        · exact Or.inl h
        · exact absurd (h ▸ hn) hx
        · exact Or.inr ⟨h, hn⟩

theorem mem_Difference_iff (set other : UnitSet) (p : UnitPtr) :
    p ∈ Difference set other ↔ p ∈ set ∧ ¬ p ∈ other := by
  unfold Difference
  rw [mem_foldl_difference]
  simp [UnitSet.mem_def, UnitSet.empty]

theorem mem_Intersection_iff (set other : UnitSet) (p : UnitPtr) :
    p ∈ Intersection set other ↔ p ∈ set ∧ p ∈ other := by
  unfold Intersection
  rw [mem_foldl_intersection]
  simp [UnitSet.mem_def, UnitSet.empty]

end AOI

/-! ## One round of each notification loop -/

namespace AOI

theorem heap_of_skeleton {a b : AOI} (h : skeleton b = skeleton a) (q : UnitPtr) :
    (b.heap q).map Unit.clear = (a.heap q).map Unit.clear := by
  have := congrArg (fun s => s.heap q) h
  simpa [skeleton] using this

theorem idOf_of_skeleton {a b : AOI} (h : skeleton b = skeleton a) (q : UnitPtr) :
    b.idOf q = a.idOf q := by
  have := heap_of_skeleton h q
  unfold idOf
  cases hb : b.heap q <;> cases ha : a.heap q <;> simp_all [Unit.clear]

theorem hasEnter_of_skeleton {a b : AOI} (h : skeleton b = skeleton a) (q : UnitPtr) :
    b.hasEnter q = a.hasEnter q := by
  have := heap_of_skeleton h q
  unfold hasEnter
  cases hb : b.heap q <;> cases ha : a.heap q <;> simp_all [Unit.clear]

theorem hasLeave_of_skeleton {a b : AOI} (h : skeleton b = skeleton a) (q : UnitPtr) :
    b.hasLeave q = a.hasLeave q := by
  have := heap_of_skeleton h q
  unfold hasLeave
  cases hb : b.heap q <;> cases ha : a.heap q <;> simp_all [Unit.clear]

theorem live_of_skeleton {a b : AOI} (h : skeleton b = skeleton a) (q : UnitPtr) :
    b.live q = a.live q := by
  have := heap_of_skeleton h q
  unfold live
  cases hb : b.heap q <;> cases ha : a.heap q <;> simp_all

end AOI

namespace AOI

theorem enterBody_spec (a : AOI) (unit other : UnitPtr)
    (hu : a.hasEnter unit = true) (ho : a.hasEnter other = true) :
    ∃ b, enterBody unit a other = .ok b ∧ skeleton b = skeleton a ∧
      b.trace = a.trace ++ a.enterCalls unit other ∧
      (∀ q, q ≠ unit → q ≠ other → b.heap q = a.heap q) ∧
      (∀ q r, r ∈ b.subs q ↔ r ∈ a.subs q ∨ (q = other ∧ r = unit) ∨ (q = unit ∧ r = other)) := by
  unfold hasEnter at hu ho
  cases hU : a.heap unit with
  | none => simp [hU] at hu
  | some u =>
    cases hO : a.heap other with
    | none => simp [hO] at ho
    | some o =>
      simp [hU] at hu
      simp [hO] at ho
      by_cases hne : other = unit
      · subst hne
        have hO' : o = u := by simpa [hU] using hO.symm
        subst hO'
        have hrun : enterBody other a other = .ok
            { a with
              trace := a.trace ++ a.enterCalls other other
              heap := fun q => if q = other then some ((o.Subscribe other).Subscribe other)
                else a.heap q } := by
          simp [enterBody, deref, invoke, store, hU, hu, enterCalls, idOf, bind, Except.bind,
            pure, Except.pure, Unit.Subscribe]
          funext q
          by_cases hq : q = other <;> simp [hq]
        refine ⟨_, hrun, ?_, rfl, ?_, ?_⟩
        · simp only [skeleton]
          congr 1
          funext q
          by_cases hq : q = other
          · simp [hq, hU, Unit.clear, Unit.Subscribe]
          · simp [hq]
        · intro q h1 _
          simp [h1]
        · intro q r
          by_cases hq : q = other
          · simp [subs, hq, hU, Unit.Subscribe]
            tauto
          · simp [subs, hq]
      · have hne' : unit ≠ other := fun h => hne h.symm
        have hrun : enterBody unit a other = .ok
            { a with
              trace := a.trace ++ a.enterCalls unit other
              heap := fun q => if q = unit then some (u.Subscribe other)
                else if q = other then some (o.Subscribe unit) else a.heap q } := by
          simp [enterBody, deref, invoke, store, hU, hO, hu, ho, hne, hne', enterCalls, idOf,
            bind, Except.bind, pure, Except.pure, Unit.Subscribe]
        refine ⟨_, hrun, ?_, rfl, ?_, ?_⟩
        · simp only [skeleton]
          congr 1
          funext q
          by_cases hq : q = unit
          · simp [hq, hU, Unit.clear, Unit.Subscribe]
          · by_cases hq' : q = other
            · simp [hq', hne, hO, Unit.clear, Unit.Subscribe]
            · simp [hq, hq']
        · intro q h1 h2
          simp [h1, h2]
        · intro q r
          by_cases hq : q = unit
          · simp [subs, hq, hU, hne', Unit.Subscribe]
            tauto
          · by_cases hq' : q = other
            · simp [subs, hq', hne, hO, Unit.Subscribe]
              tauto
            · simp [subs, hq, hq']

end AOI

namespace AOI

theorem leaveBody_spec (a : AOI) (unit other : UnitPtr)
    (hu : a.live unit = true) (ho : a.hasLeave other = true) :
    ∃ b, leaveBody unit a other = .ok b ∧ skeleton b = skeleton a ∧
      b.trace = a.trace ++ [a.leaveCall unit other] ∧
      (∀ q, q ≠ other → b.heap q = a.heap q) ∧
      (∀ q r, r ∈ b.subs q ↔ r ∈ a.subs q ∧ ¬ (q = other ∧ r = unit)) := by
  unfold live at hu
  unfold hasLeave at ho
  cases hU : a.heap unit with
  | none => simp [hU] at hu
  | some u =>
    cases hO : a.heap other with
    | none => simp [hO] at ho
    | some o =>
      simp [hO] at ho
      have hrun : leaveBody unit a other = .ok
          { a with
            trace := a.trace ++ [a.leaveCall unit other]
            heap := fun q => if q = other then some (o.UnSubscribe unit) else a.heap q } := by
        simp [leaveBody, deref, invoke, store, hU, hO, ho, leaveCall, idOf, bind, Except.bind,
          pure, Except.pure, Unit.UnSubscribe]
      refine ⟨_, hrun, ?_, rfl, ?_, ?_⟩
      · simp only [skeleton]
        congr 1
        funext q
        by_cases hq : q = other
        · simp [hq, hO, Unit.clear, Unit.UnSubscribe]
        · simp [hq]
      · intro q h1
        simp [h1]
      · intro q r
        by_cases hq : q = other
        · simp [subs, hq, hO, Unit.UnSubscribe]
          tauto
        · simp [subs, hq]

/-! ## The loops -/

theorem enterCalls_of_skeleton {a b : AOI} (h : skeleton b = skeleton a) (unit : UnitPtr) :
    b.enterCalls unit = a.enterCalls unit := by
  funext p
  simp [enterCalls, idOf_of_skeleton h]

theorem leaveCall_of_skeleton {a b : AOI} (h : skeleton b = skeleton a) (unit : UnitPtr) :
    b.leaveCall unit = a.leaveCall unit := by
  funext p
  simp [leaveCall, idOf_of_skeleton h]

theorem enterLoop_spec (unit : UnitPtr) (l : List UnitPtr) :
    ∀ a : AOI, a.hasEnter unit = true → (∀ p ∈ l, a.hasEnter p = true) →
      ∃ b, l.foldlM (enterBody unit) a = .ok b ∧ skeleton b = skeleton a ∧
        b.trace = a.trace ++ l.flatMap (a.enterCalls unit) ∧
        (∀ q, q ≠ unit → q ∉ l → b.heap q = a.heap q) ∧
        (∀ q r, r ∈ b.subs q ↔ r ∈ a.subs q ∨ (q ∈ l ∧ r = unit) ∨ (q = unit ∧ r ∈ l)) := by
  induction l with
  | nil =>
    intro a _ _
    exact ⟨a, rfl, rfl, by simp, fun _ _ _ => rfl, by simp⟩
  | cons x xs ih =>
    intro a hu hl
    obtain ⟨a1, hrun1, hsk1, htr1, hfr1, hsub1⟩ :=
      enterBody_spec a unit x hu (hl x (List.mem_cons_self x xs))
    have hu1 : a1.hasEnter unit = true := by rw [hasEnter_of_skeleton hsk1]; exact hu
    have hl1 : ∀ p ∈ xs, a1.hasEnter p = true := by
      intro p hp
      rw [hasEnter_of_skeleton hsk1]
      exact hl p (List.mem_cons_of_mem x hp)
    obtain ⟨b, hrun, hsk, htr, hfr, hsub⟩ := ih a1 hu1 hl1
    refine ⟨b, ?_, hsk.trans hsk1, ?_, ?_, ?_⟩
    · rw [List.foldlM_cons, hrun1]
      exact hrun
    · rw [htr, htr1, enterCalls_of_skeleton hsk1, List.flatMap_cons, List.append_assoc]
    · intro q h1 h2
      rw [List.mem_cons, not_or] at h2
      rw [hfr q h1 h2.2, hfr1 q h1 h2.1]
    · intro q r
      rw [hsub, hsub1]
      simp only [List.mem_cons]
      tauto

theorem leaveLoop_spec (unit : UnitPtr) (l : List UnitPtr) :
    ∀ a : AOI, a.live unit = true → (∀ p ∈ l, a.hasLeave p = true) →
      ∃ b, l.foldlM (leaveBody unit) a = .ok b ∧ skeleton b = skeleton a ∧
        b.trace = a.trace ++ l.map (a.leaveCall unit) ∧
        (∀ q, q ∉ l → b.heap q = a.heap q) ∧
        (∀ q r, r ∈ b.subs q ↔ r ∈ a.subs q ∧ ¬ (q ∈ l ∧ r = unit)) := by
  induction l with
  | nil =>
    intro a _ _
    exact ⟨a, rfl, rfl, by simp, fun _ _ => rfl, by simp⟩
  | cons x xs ih =>
    intro a hu hl
    obtain ⟨a1, hrun1, hsk1, htr1, hfr1, hsub1⟩ :=
      leaveBody_spec a unit x hu (hl x (List.mem_cons_self x xs))
    have hu1 : a1.live unit = true := by rw [live_of_skeleton hsk1]; exact hu
    have hl1 : ∀ p ∈ xs, a1.hasLeave p = true := by
      intro p hp
      rw [hasLeave_of_skeleton hsk1]
      exact hl p (List.mem_cons_of_mem x hp)
    obtain ⟨b, hrun, hsk, htr, hfr, hsub⟩ := ih a1 hu1 hl1
    refine ⟨b, ?_, hsk.trans hsk1, ?_, ?_, ?_⟩
    · rw [List.foldlM_cons, hrun1]
      exact hrun
    · rw [htr, htr1, leaveCall_of_skeleton hsk1, List.map_cons, List.append_assoc]
      rfl
    · intro q h2
      rw [List.mem_cons, not_or] at h2
      rw [hfr q h2.2, hfr1 q h2.1]
    · intro q r
      rw [hsub, hsub1]
      simp only [List.mem_cons]
      tauto

end AOI

/-! ## Runs that return normally -/

namespace AOI

theorem enterBody_ok_inv (a b : AOI) (unit other : UnitPtr)
    (h : enterBody unit a other = .ok b) :
    a.hasEnter unit = true ∧ a.hasEnter other = true := by
  unfold hasEnter
  cases hO : a.heap other with
  | none => simp [enterBody, deref, hO, bind, Except.bind] at h
  | some o =>
    cases hU : a.heap unit with
    | none => simp [enterBody, deref, hO, hU, bind, Except.bind] at h
    | some u =>
      cases ho : o.enter_callback with
      | empty => simp [enterBody, deref, invoke, hO, hU, ho, bind, Except.bind] at h
      | host =>
        cases hu : u.enter_callback with
        | host => simp [hu, ho]
        | empty =>
          exfalso
          by_cases hne : unit = other
          · subst hne
            rw [hO] at hU
            cases hU
            rw [ho] at hu
            cases hu
          · simp [enterBody, deref, invoke, store, hO, hU, ho, hu, hne, bind, Except.bind,
              Unit.Subscribe] at h

theorem leaveBody_ok_inv (a b : AOI) (unit other : UnitPtr)
    (h : leaveBody unit a other = .ok b) :
    a.live unit = true ∧ a.hasLeave other = true := by
  unfold hasLeave live
  cases hO : a.heap other with
  | none => simp [leaveBody, deref, hO, bind, Except.bind] at h
  | some o =>
    cases hU : a.heap unit with
    | none => simp [leaveBody, deref, hO, hU, bind, Except.bind] at h
    | some u =>
      cases ho : o.leave_callback with
      | empty => simp [leaveBody, deref, invoke, hO, hU, ho, bind, Except.bind] at h
      | host => simp [ho]

theorem foldlM_cons_ok {f : AOI → UnitPtr → Except Fault AOI} {a b : AOI} {x : UnitPtr}
    {xs : List UnitPtr} (h : (x :: xs).foldlM f a = .ok b) :
    ∃ a1, f a x = .ok a1 ∧ xs.foldlM f a1 = .ok b := by
  rw [List.foldlM_cons] at h
  cases h1 : f a x with
  | error e => simp [h1, bind, Except.bind] at h
  | ok a1 => exact ⟨a1, rfl, by simpa [h1, bind, Except.bind] using h⟩

theorem enterLoop_ok_inv (unit : UnitPtr) (l : List UnitPtr) :
    ∀ a b : AOI, l.foldlM (enterBody unit) a = .ok b →
      (∀ p ∈ l, a.hasEnter p = true) ∧ (l ≠ [] → a.hasEnter unit = true) := by
  induction l with
  | nil => intro a b _; simp
  | cons x xs ih =>
    intro a b h
    obtain ⟨a1, h1, hrest⟩ := foldlM_cons_ok h
    obtain ⟨hu, hx⟩ := enterBody_ok_inv a a1 unit x h1
    obtain ⟨a1', h1', hsk, _⟩ := enterBody_spec a unit x hu hx
    have e : a1' = a1 := by rw [h1] at h1'; exact (Except.ok.inj h1').symm
    subst e
    refine ⟨?_, fun _ => hu⟩
    intro p hp
    rcases List.mem_cons.1 hp with hpx | hpx
    · rw [hpx]; exact hx
    · rw [← hasEnter_of_skeleton hsk]
      exact (ih a1' b hrest).1 p hpx

theorem leaveLoop_ok_inv (unit : UnitPtr) (l : List UnitPtr) :
    ∀ a b : AOI, l.foldlM (leaveBody unit) a = .ok b →
      (∀ p ∈ l, a.hasLeave p = true) ∧ (l ≠ [] → a.live unit = true) := by
  induction l with
  | nil => intro a b _; simp
  | cons x xs ih =>
    intro a b h
    obtain ⟨a1, h1, hrest⟩ := foldlM_cons_ok h
    obtain ⟨hu, hx⟩ := leaveBody_ok_inv a a1 unit x h1
    obtain ⟨a1', h1', hsk, _⟩ := leaveBody_spec a unit x hu hx
    have e : a1' = a1 := by rw [h1] at h1'; exact (Except.ok.inj h1').symm
    subst e
    refine ⟨?_, fun _ => hu⟩
    intro p hp
    rcases List.mem_cons.1 hp with hpx | hpx
    · rw [hpx]; exact hx
    · rw [← hasLeave_of_skeleton hsk]
      exact (ih a1' b hrest).1 p hpx

theorem enterLoop_sound (unit : UnitPtr) (l : List UnitPtr) (a b : AOI)
    (h : l.foldlM (enterBody unit) a = .ok b) :
    skeleton b = skeleton a ∧ b.trace = a.trace ++ l.flatMap (a.enterCalls unit) ∧
      (∀ q, q ≠ unit → q ∉ l → b.heap q = a.heap q) ∧
      (∀ q r, r ∈ b.subs q ↔ r ∈ a.subs q ∨ (q ∈ l ∧ r = unit) ∨ (q = unit ∧ r ∈ l)) := by
  cases l with
  | nil =>
    have e : a = b := by simpa [pure, Except.pure] using h
    subst e
    exact ⟨rfl, by simp, fun _ _ _ => rfl, by simp⟩
  | cons x xs =>
    obtain ⟨hl, hu⟩ := enterLoop_ok_inv unit (x :: xs) a b h
    obtain ⟨b', hrun, hrest⟩ := enterLoop_spec unit (x :: xs) a (hu (List.cons_ne_nil x xs)) hl
    have e : b' = b := by rw [h] at hrun; exact (Except.ok.inj hrun).symm
    subst e
    exact hrest

theorem leaveLoop_sound (unit : UnitPtr) (l : List UnitPtr) (a b : AOI)
    (h : l.foldlM (leaveBody unit) a = .ok b) :
    skeleton b = skeleton a ∧ b.trace = a.trace ++ l.map (a.leaveCall unit) ∧
      (∀ q, q ∉ l → b.heap q = a.heap q) ∧
      (∀ q r, r ∈ b.subs q ↔ r ∈ a.subs q ∧ ¬ (q ∈ l ∧ r = unit)) := by
  cases l with
  | nil =>
    have e : a = b := by simpa [pure, Except.pure] using h
    subst e
    exact ⟨rfl, by simp, fun _ _ => rfl, by simp⟩
  | cons x xs =>
    obtain ⟨hl, hu⟩ := leaveLoop_ok_inv unit (x :: xs) a b h
    obtain ⟨b', hrun, hrest⟩ := leaveLoop_spec unit (x :: xs) a (hu (List.cons_ne_nil x xs)) hl
    have e : b' = b := by rw [h] at hrun; exact (Except.ok.inj hrun).symm
    subst e
    exact hrest

end AOI

/-! ## Counting invocations -/

theorem count_flatMap_one {α β : Type} [DecidableEq β] (f : α → List β) (c : β) (p : α) :
    ∀ l : List α, l.Nodup → p ∈ l → (f p).count c = 1 →
      (∀ q ∈ l, q ≠ p → (f q).count c = 0) → (l.flatMap f).count c = 1 := by
  intro l
  induction l with
  | nil => intro _ hp; simp at hp
  | cons x xs ih =>
    intro hnd hp h1 h0
    rw [List.flatMap_cons, List.count_append]
    rw [List.nodup_cons] at hnd
    rcases List.mem_cons.1 hp with hpx | hpx
    · subst hpx
      have hrest : (xs.flatMap f).count c = 0 := by
        rw [List.count_eq_zero]
        intro hc
        obtain ⟨q, hq, hcq⟩ := List.mem_flatMap.1 hc
        have hqp : q ≠ p := fun h => hnd.1 (h ▸ hq)
        have := h0 q (List.mem_cons_of_mem _ hq) hqp
        rw [List.count_eq_zero] at this
        exact this hcq
      rw [h1, hrest]
    · have hxp : x ≠ p := fun h => hnd.1 (h ▸ hpx)
      rw [h0 x (List.mem_cons_self x xs) hxp,
        ih hnd.2 hpx h1 (fun q hq hqp => h0 q (List.mem_cons_of_mem _ hq) hqp)]

/-! ## The enter step -/

namespace AOI

/-- C1.  `NotifyEnter(unit, enter_set)`, when `unit` and every peer are live units with an
`enter_callback` and `unit` is not in `enter_set`, returns normally; the invocations it adds to
the trace are, peer by peer, `P.enter_callback(P.id, U.id)` followed by
`U.enter_callback(U.id, P.id)` and nothing else.  Each peer's invocation therefore occurs exactly
once, the matching invocation on `unit` occurs exactly once (the ids of the peers being pairwise
different), and every invocation made is one of these two kinds. -/
theorem NotifyEnter_invocations (a : AOI) (unit : UnitPtr) (enter_set : UnitSet)
    (hU : a.hasEnter unit = true) (hE : ∀ p ∈ enter_set, a.hasEnter p = true)
    (hne : ¬ unit ∈ enter_set) :
    ∃ b fired, a.NotifyEnter unit enter_set = .ok b ∧ b.trace = a.trace ++ fired ∧
      fired = enter_set.elems.flatMap (fun p =>
        [⟨p, .enter, a.idOf p, a.idOf unit⟩, ⟨unit, .enter, a.idOf unit, a.idOf p⟩]) ∧
      (∀ p ∈ enter_set,
        fired.count ⟨p, .enter, a.idOf p, a.idOf unit⟩ = 1 ∧
        ((∀ q ∈ enter_set, a.idOf q = a.idOf p → q = p) →
          fired.count ⟨unit, .enter, a.idOf unit, a.idOf p⟩ = 1)) ∧
      (∀ c ∈ fired, ∃ p ∈ enter_set,
        c = ⟨p, .enter, a.idOf p, a.idOf unit⟩ ∨ c = ⟨unit, .enter, a.idOf unit, a.idOf p⟩) := by
  obtain ⟨b, hrun, _, htr, _, _⟩ := enterLoop_spec unit enter_set.elems a hU hE
  refine ⟨b, _, hrun, htr, rfl, ?_, ?_⟩
  · intro p hp
    have hpu : p ≠ unit := fun h => hne (h ▸ hp)
    constructor
    · apply count_flatMap_one _ _ p _ enter_set.nodup hp
      · simp [enterCalls, List.count_cons, hpu.symm]
      · intro q _ hqp
        simp [enterCalls, List.count_cons, hqp, hpu.symm]
    · intro hinj
      apply count_flatMap_one _ _ p _ enter_set.nodup hp
      · simp [enterCalls, List.count_cons, hpu]
      · intro q hq hqp
        have hqu : q ≠ unit := fun h => hne (h ▸ hq)
        have hid : a.idOf q ≠ a.idOf p := fun h => hqp (hinj q hq h)
        simp [enterCalls, List.count_cons, hqu, hid]
  · intro c hc
    obtain ⟨p, hp, hcp⟩ := List.mem_flatMap.1 hc
    refine ⟨p, hp, ?_⟩
    simpa [enterCalls] using hcp

end AOI

namespace AOI

/-- Witness of C1 on the scenario: unit 1 (at address 16) and the set holding unit 2 (at address
17) satisfy the hypotheses, and the call fires exactly `(2,1)` on unit 2 and `(1,2)` on unit 1. -/
theorem NotifyEnter_invocations_witness :
    scene.hasEnter 16 = true ∧ (∀ p ∈ only17, scene.hasEnter p = true) ∧ ¬ 16 ∈ only17 ∧
      ∃ b, scene.NotifyEnter 16 only17 = .ok b ∧
        b.trace = [⟨17, .enter, 2, 1⟩, ⟨16, .enter, 1, 2⟩] := by
  have h1 : scene.hasEnter 16 = true := by decide
  have h2 : ∀ p ∈ only17, scene.hasEnter p = true := by
    intro p hp
    have hp17 : p = 17 := by simpa [UnitSet.mem_def, only17] using hp
    subst hp17
    decide
  have h3 : ¬ 16 ∈ only17 := by decide
  obtain ⟨b, fired, hrun, htr, hf, _, _⟩ := NotifyEnter_invocations scene 16 only17 h1 h2 h3
  refine ⟨h1, h2, h3, b, hrun, ?_⟩
  rw [htr, hf]
  decide

/-- C2.  Let `unit` not be in `enter_set`.  `NotifyEnter(unit, enter_set)` returns normally when
`unit` and every peer are live units with an `enter_callback`; and whenever it returns normally:
the subscribe set of `unit` is its old value united with `enter_set`; the subscribe set of each
peer is its old value united with `{unit}`; every other unit has the subscribe set it had; so
`unit` and each peer are subscribed to each other. -/
theorem NotifyEnter_subscriptions (a : AOI) (unit : UnitPtr) (enter_set : UnitSet)
    (hne : ¬ unit ∈ enter_set) :
    ((a.hasEnter unit = true ∧ ∀ p ∈ enter_set, a.hasEnter p = true) →
      ∃ b, a.NotifyEnter unit enter_set = .ok b) ∧
    ∀ b, a.NotifyEnter unit enter_set = .ok b →
      (∀ r, r ∈ b.subs unit ↔ r ∈ a.subs unit ∨ r ∈ enter_set) ∧
      (∀ p ∈ enter_set, ∀ r, r ∈ b.subs p ↔ r ∈ a.subs p ∨ r = unit) ∧
      (∀ q, ¬ q ∈ enter_set → q ≠ unit → b.subs q = a.subs q) ∧
      (∀ p ∈ enter_set, p ∈ b.subs unit ∧ unit ∈ b.subs p) := by
  constructor
  · rintro ⟨hU, hE⟩
    obtain ⟨b, hrun, _⟩ := enterLoop_spec unit enter_set.elems a hU hE
    exact ⟨b, hrun⟩
  intro b hrun
  obtain ⟨_, _, hfr, hsub⟩ := enterLoop_sound unit enter_set.elems a b hrun
  have hne' : unit ∉ enter_set.elems := hne
  refine ⟨?_, ?_, ?_, ?_⟩
  · intro r
    rw [hsub]
    simp [hne', UnitSet.mem_def]
  · intro p hp r
    have hpu : p ≠ unit := fun h => hne (h ▸ hp)
    have hp' : p ∈ enter_set.elems := hp
    rw [hsub]
    simp [hpu, hp']
  · intro q hq hqu
    have := hfr q hqu hq
    simp [subs, this]
  · intro p hp
    have hp' : p ∈ enter_set.elems := hp
    constructor
    · rw [hsub]; exact Or.inr (Or.inr ⟨rfl, hp'⟩)
    · rw [hsub]; exact Or.inr (Or.inl ⟨hp', rfl⟩)

/-- Witness of C2 on the scenario: from empty subscribe sets, unit 1 and `{unit 2}` end with the
subscribe sets `{unit 2}` and `{unit 1}`. -/
theorem NotifyEnter_subscriptions_witness :
    ¬ 16 ∈ only17 ∧ (scene.subs 16).elems = [] ∧ (scene.subs 17).elems = [] ∧
      ∃ b, scene.NotifyEnter 16 only17 = .ok b ∧
        (∀ r, r ∈ b.subs 16 ↔ r = 17) ∧ (∀ r, r ∈ b.subs 17 ↔ r = 16) := by
  have h1 : scene.hasEnter 16 = true := by decide
  have h2 : ∀ p ∈ only17, scene.hasEnter p = true := by
    intro p hp
    have hp17 : p = 17 := by simpa [UnitSet.mem_def, only17] using hp
    subst hp17
    decide
  have h3 : ¬ 16 ∈ only17 := by decide
  have e16 : (scene.subs 16).elems = [] := by decide
  have e17 : (scene.subs 17).elems = [] := by decide
  obtain ⟨hret, hafter⟩ := NotifyEnter_subscriptions scene 16 only17 h3
  obtain ⟨b, hrun⟩ := hret ⟨h1, h2⟩
  obtain ⟨hu, hp, _, _⟩ := hafter b hrun
  refine ⟨h3, e16, e17, b, hrun, ?_, ?_⟩
  · intro r
    rw [hu]
    simp [UnitSet.mem_def, e16, only17]
  · intro r
    rw [hp 17 (by decide)]
    simp [UnitSet.mem_def, e17]

/-! ## The leave step -/

/-- C3.  `NotifyLeave(unit, leave_set)`, when `unit` is a live unit, every peer is a live unit
with a `leave_callback` and `unit` is not in `leave_set`, returns normally; the invocations it
adds to the trace are `P.leave_callback(P.id, U.id)`, one per peer and nothing else.  Each
occurs exactly once, every invocation made is of this kind, and none is a callback of `unit`. -/
theorem NotifyLeave_invocations (a : AOI) (unit : UnitPtr) (leave_set : UnitSet)
    (hU : a.live unit = true) (hL : ∀ p ∈ leave_set, a.hasLeave p = true)
    (hne : ¬ unit ∈ leave_set) :
    ∃ b fired, a.NotifyLeave unit leave_set = .ok b ∧ b.trace = a.trace ++ fired ∧
      fired = leave_set.elems.map (fun p => ⟨p, .leave, a.idOf p, a.idOf unit⟩) ∧
      (∀ p ∈ leave_set, fired.count ⟨p, .leave, a.idOf p, a.idOf unit⟩ = 1) ∧
      (∀ c ∈ fired, ∃ p ∈ leave_set, c = ⟨p, .leave, a.idOf p, a.idOf unit⟩) ∧
      (∀ c ∈ fired, c.owner ≠ unit) := by
  obtain ⟨b, hrun, _, htr, _, _⟩ := leaveLoop_spec unit leave_set.elems a hU hL
  have hinj : Function.Injective (a.leaveCall unit) := by
    intro p q h
    simpa [leaveCall] using (congrArg Invocation.owner h)
  refine ⟨b, _, hrun, htr, rfl, ?_, ?_, ?_⟩
  · intro p hp
    have hnd : (leave_set.elems.map (a.leaveCall unit)).Nodup := leave_set.nodup.map hinj
    exact List.count_eq_one_of_mem hnd (List.mem_map_of_mem _ hp)
  · intro c hc
    obtain ⟨p, hp, hcp⟩ := List.mem_map.1 hc
    exact ⟨p, hp, hcp.symm⟩
  · intro c hc
    obtain ⟨p, hp, hcp⟩ := List.mem_map.1 hc
    intro h
    apply hne
    rw [← hcp] at h
    exact h ▸ hp

/-- Witness of C3 on the scenario after the two units met: unit 1 and `{unit 2}` satisfy the
hypotheses, and the call fires exactly `(2,1)` on unit 2. -/
theorem NotifyLeave_invocations_witness :
    scene.live 16 = true ∧ (∀ p ∈ only17, scene.hasLeave p = true) ∧ ¬ 16 ∈ only17 ∧
      ∃ b, scene.NotifyLeave 16 only17 = .ok b ∧ b.trace = [⟨17, .leave, 2, 1⟩] := by
  have h1 : scene.live 16 = true := by decide
  have h2 : ∀ p ∈ only17, scene.hasLeave p = true := by
    intro p hp
    have hp17 : p = 17 := by simpa [UnitSet.mem_def, only17] using hp
    subst hp17
    decide
  have h3 : ¬ 16 ∈ only17 := by decide
  obtain ⟨b, fired, hrun, htr, hf, _, _, _⟩ := NotifyLeave_invocations scene 16 only17 h1 h2 h3
  refine ⟨h1, h2, h3, b, hrun, ?_⟩
  rw [htr, hf]
  decide

/-- C4.  Let `unit` not be in `leave_set`.  `NotifyLeave(unit, leave_set)` returns normally when
`unit` is a live unit and every peer is a live unit with a `leave_callback`; and whenever it
returns normally: the subscribe set of each peer is its old value without `unit`; the subscribe
set of `unit` and that of every unit outside `leave_set` are what they were; so a peer that was
in the subscribe set of `unit` is still there. -/
theorem NotifyLeave_subscriptions (a : AOI) (unit : UnitPtr) (leave_set : UnitSet)
    (hne : ¬ unit ∈ leave_set) :
    ((a.live unit = true ∧ ∀ p ∈ leave_set, a.hasLeave p = true) →
      ∃ b, a.NotifyLeave unit leave_set = .ok b) ∧
    ∀ b, a.NotifyLeave unit leave_set = .ok b →
      (∀ p ∈ leave_set, ∀ r, r ∈ b.subs p ↔ r ∈ a.subs p ∧ r ≠ unit) ∧
      b.subs unit = a.subs unit ∧
      (∀ q, ¬ q ∈ leave_set → b.subs q = a.subs q) ∧
      (∀ p ∈ leave_set, p ∈ a.subs unit → p ∈ b.subs unit) := by
  constructor
  · rintro ⟨hU, hL⟩
    obtain ⟨b, hrun, _⟩ := leaveLoop_spec unit leave_set.elems a hU hL
    exact ⟨b, hrun⟩
  intro b hrun
  obtain ⟨_, _, hfr, hsub⟩ := leaveLoop_sound unit leave_set.elems a b hrun
  have hunit : b.subs unit = a.subs unit := by
    have := hfr unit hne
    simp [subs, this]
  refine ⟨?_, hunit, ?_, ?_⟩
  · intro p hp r
    have hp' : p ∈ leave_set.elems := hp
    rw [hsub]
    simp [hp']
  · intro q hq
    have := hfr q hq
    simp [subs, this]
  · intro p _ hpu
    rw [hunit]
    exact hpu

/-- Witness of C4 on the scenario after the two units met: when unit 2 leaves the sight of unit
1, unit 2 loses unit 1 and unit 1 keeps unit 2. -/
theorem NotifyLeave_subscriptions_witness :
    ¬ 16 ∈ only17 ∧ (scene_met.subs 16).elems = [17] ∧ (scene_met.subs 17).elems = [16] ∧
      ∃ b, scene_met.NotifyLeave 16 only17 = .ok b ∧
        (b.subs 16).elems = [17] ∧ (∀ r, ¬ r ∈ b.subs 17) := by
  have h1 : scene_met.live 16 = true := by decide
  have h2 : ∀ p ∈ only17, scene_met.hasLeave p = true := by
    intro p hp
    have hp17 : p = 17 := by simpa [UnitSet.mem_def, only17] using hp
    subst hp17
    decide
  have h3 : ¬ 16 ∈ only17 := by decide
  have e16 : (scene_met.subs 16).elems = [17] := by decide
  have e17 : (scene_met.subs 17).elems = [16] := by decide
  obtain ⟨hret, hafter⟩ := NotifyLeave_subscriptions scene_met 16 only17 h3
  obtain ⟨b, hrun⟩ := hret ⟨h1, h2⟩
  obtain ⟨hp, hu, _, _⟩ := hafter b hrun
  refine ⟨h3, e16, e17, b, hrun, ?_, ?_⟩
  · rw [hu]
    exact e16
  · intro r
    rw [hp 17 (by decide)]
    simp [UnitSet.mem_def, e17]

end AOI

/-! ## The diff protocol: `NotifyAll(U, Difference(new, old), Difference(old, new))` -/

namespace AOI

theorem live_of_hasEnter {a : AOI} {p : UnitPtr} (h : a.hasEnter p = true) : a.live p = true := by
  unfold hasEnter at h
  unfold live
  cases hp : a.heap p <;> simp_all

theorem NotifyAll_spec (a : AOI) (unit : UnitPtr) (enter_set leave_set : UnitSet)
    (hU : a.hasEnter unit = true) (hE : ∀ p ∈ enter_set, a.hasEnter p = true)
    (hL : ∀ p ∈ leave_set, a.hasLeave p = true) :
    ∃ b, a.NotifyAll unit enter_set leave_set = .ok b ∧ skeleton b = skeleton a ∧
      b.trace = a.trace ++ enter_set.elems.flatMap (a.enterCalls unit) ++
        leave_set.elems.map (a.leaveCall unit) ∧
      (∀ q r, r ∈ b.subs q ↔
        (r ∈ a.subs q ∨ (q ∈ enter_set ∧ r = unit) ∨ (q = unit ∧ r ∈ enter_set)) ∧
          ¬ (q ∈ leave_set ∧ r = unit)) := by
  obtain ⟨a1, hrun1, hsk1, htr1, _, hsub1⟩ := enterLoop_spec unit enter_set.elems a hU hE
  have hU1 : a1.live unit = true := by
    rw [live_of_skeleton hsk1]; exact live_of_hasEnter hU
  have hL1 : ∀ p ∈ leave_set.elems, a1.hasLeave p = true := by
    intro p hp
    rw [hasLeave_of_skeleton hsk1]
    exact hL p hp
  obtain ⟨b, hrun, hsk, htr, _, hsub⟩ := leaveLoop_spec unit leave_set.elems a1 hU1 hL1
  refine ⟨b, ?_, hsk.trans hsk1, ?_, ?_⟩
  · simp only [NotifyAll, NotifyEnter, NotifyLeave, hrun1, bind, Except.bind]
    exact hrun
  · rw [htr, htr1, leaveCall_of_skeleton hsk1]
  · intro q r
    rw [hsub, hsub1]
    rfl

theorem NotifyAll_nil (b : AOI) (unit : UnitPtr) (s t : UnitSet)
    (hs : s.elems = []) (ht : t.elems = []) : b.NotifyAll unit s t = .ok b := by
  simp [NotifyAll, NotifyEnter, NotifyLeave, hs, ht, bind, Except.bind, pure, Except.pure]

theorem elems_eq_nil {s : UnitSet} (h : ∀ p, ¬ p ∈ s) : s.elems = [] :=
  List.eq_nil_iff_forall_not_mem.2 h

end AOI

namespace AOI

/-- C5, counterexample.  In the scenario after the two units met, subscription is symmetric and
the empty nearby-set does not contain unit 1; yet after the diff protocol ran for unit 1, unit 2
is still in the subscribe set of unit 1 while unit 1 is no longer in that of unit 2. -/
theorem symmetry_lost_after_leave :
    (∀ A B, A ∈ scene_met.subs B ↔ B ∈ scene_met.subs A) ∧ ¬ 16 ∈ UnitSet.empty ∧
      ∃ b, scene_met.NotifyAll 16 (Difference UnitSet.empty (scene_met.subs 16))
          (Difference (scene_met.subs 16) UnitSet.empty) = .ok b ∧
        17 ∈ b.subs 16 ∧ ¬ 16 ∈ b.subs 17 := by
  refine ⟨?_, by decide, scene_left, rfl, by decide, by decide⟩
  intro A B
  have hheap : scene_met.heap = fun q =>
      if q = 16 then some ⟨1, .finite 0, .finite 0, .host, .host, ⟨[17], by decide⟩⟩
      else if q = 17 then some ⟨2, .finite 5, .finite 0, .host, .host, ⟨[16], by decide⟩⟩
      else if q = 17 then some (Unit.new 2 (.finite 5) (.finite 0) .host .host)
      else if q = 16 then some (Unit.new 1 (.finite 0) (.finite 0) .host .host)
      else none := rfl
  simp only [subs, hheap]
  by_cases hA : A = 16 <;> by_cases hA' : A = 17 <;> by_cases hB : B = 16 <;>
    by_cases hB' : B = 17 <;>
    simp [hA, hA', hB, hB', UnitSet.mem_def, UnitSet.empty, Unit.new]

/-- C5, amended.  From a state with symmetric subscription, when `unit` and the units of `new`
are live with an `enter_callback` and the units of `old = unit.subscribe_set` are live with a
`leave_callback`, the diff protocol returns normally and afterwards `A ∈ B.subscribe_set` iff
`B ∈ A.subscribe_set` for every pair other than `unit` with a unit of
`Difference(old, new)`; such a peer (other than `unit` itself) is still in the subscribe set of
`unit` although `unit` is no longer in the peer's.  When `old` is included in `new`, symmetry
holds for every pair. -/
theorem NotifyAll_symmetry (a : AOI) (unit : UnitPtr) (new : UnitSet)
    (hsym : ∀ A B, A ∈ a.subs B ↔ B ∈ a.subs A)
    (hU : a.hasEnter unit = true) (hN : ∀ p ∈ new, a.hasEnter p = true)
    (hO : ∀ p ∈ a.subs unit, a.hasLeave p = true) :
    ∃ b, a.NotifyAll unit (Difference new (a.subs unit)) (Difference (a.subs unit) new) = .ok b ∧
      (∀ A B, ¬ (A = unit ∧ B ∈ Difference (a.subs unit) new) →
        ¬ (B = unit ∧ A ∈ Difference (a.subs unit) new) → (A ∈ b.subs B ↔ B ∈ b.subs A)) ∧
      (∀ p ∈ Difference (a.subs unit) new, p ≠ unit → p ∈ b.subs unit ∧ ¬ unit ∈ b.subs p) ∧
      ((∀ p ∈ a.subs unit, p ∈ new) → ∀ A B, A ∈ b.subs B ↔ B ∈ b.subs A) := by
  have hE : ∀ p ∈ Difference new (a.subs unit), a.hasEnter p = true :=
    fun p hp => hN p ((mem_Difference_iff _ _ p).1 hp).1
  have hL : ∀ p ∈ Difference (a.subs unit) new, a.hasLeave p = true :=
    fun p hp => hO p ((mem_Difference_iff _ _ p).1 hp).1
  obtain ⟨b, hrun, _, _, hsub⟩ := NotifyAll_spec a unit _ _ hU hE hL
  have key : ∀ A B, ¬ (A = unit ∧ B ∈ Difference (a.subs unit) new) →
      ¬ (B = unit ∧ A ∈ Difference (a.subs unit) new) → (A ∈ b.subs B ↔ B ∈ b.subs A) := by
    intro A B h1 h2
    rw [hsub, hsub, hsym A B]
    tauto
  refine ⟨b, hrun, key, ?_, ?_⟩
  · intro p hp hpu
    have hp' := (mem_Difference_iff _ _ p).1 hp
    constructor
    · rw [hsub]
      exact ⟨Or.inl hp'.1, fun h => hpu h.2⟩
    · rw [hsub]
      exact fun h => h.2 ⟨hp, rfl⟩
  · intro hsubset A B
    apply key
    · rintro ⟨_, hB⟩
      have hB' := (mem_Difference_iff _ _ B).1 hB
      exact hB'.2 (hsubset B hB'.1)
    · rintro ⟨_, hA⟩
      have hA' := (mem_Difference_iff _ _ A).1 hA
      exact hA'.2 (hsubset A hA'.1)

/-- Witness of C5 (amended) on the scenario: before the units met the subscribe sets are empty,
hence symmetric; running the protocol for unit 1 with the nearby-set `{unit 2}` keeps
subscription symmetric. -/
theorem NotifyAll_symmetry_witness :
    (∀ A B, A ∈ scene.subs B ↔ B ∈ scene.subs A) ∧ scene.hasEnter 16 = true ∧
      (∀ p ∈ only17, scene.hasEnter p = true) ∧ (∀ p ∈ scene.subs 16, scene.hasLeave p = true) ∧
      ∃ b, scene.NotifyAll 16 (Difference only17 (scene.subs 16))
          (Difference (scene.subs 16) only17) = .ok b ∧
        ∀ A B, A ∈ b.subs B ↔ B ∈ b.subs A := by
  have hheap : scene.heap = fun q =>
      if q = 17 then some (Unit.new 2 (.finite 5) (.finite 0) .host .host)
      else if q = 16 then some (Unit.new 1 (.finite 0) (.finite 0) .host .host)
      else none := rfl
  have hempty : ∀ q r, ¬ r ∈ scene.subs q := by
    intro q r
    simp only [subs, hheap]
    by_cases h17 : q = 17 <;> by_cases h16 : q = 16 <;>
      simp [h17, h16, UnitSet.mem_def, UnitSet.empty, Unit.new]
  have h0 : ∀ A B, A ∈ scene.subs B ↔ B ∈ scene.subs A :=
    fun A B => ⟨fun h => absurd h (hempty B A), fun h => absurd h (hempty A B)⟩
  have h1 : scene.hasEnter 16 = true := by decide
  have h2 : ∀ p ∈ only17, scene.hasEnter p = true := by
    intro p hp
    have hp17 : p = 17 := by simpa [UnitSet.mem_def, only17] using hp
    subst hp17
    decide
  have h3 : ∀ p ∈ scene.subs 16, scene.hasLeave p = true :=
    fun p hp => absurd hp (hempty 16 p)
  obtain ⟨b, hrun, _, _, hall⟩ := NotifyAll_symmetry scene 16 only17 h0 h1 h2 h3
  exact ⟨h0, h1, h2, h3, b, hrun, hall (fun p hp => absurd hp (hempty 16 p))⟩

/-- C6, counterexample.  In the scenario after the two units met, the protocol runs for unit 1
with the empty nearby-set (which does not contain unit 1); re-running the diff against the same
nearby-set gives a `leave'` that still holds unit 2, and the second call fires the
`leave_callback` of unit 2 with `(2,1)` once more. -/
theorem rerun_fires_again :
    ¬ 16 ∈ UnitSet.empty ∧
      ∃ b, scene_met.NotifyAll 16 (Difference UnitSet.empty (scene_met.subs 16))
          (Difference (scene_met.subs 16) UnitSet.empty) = .ok b ∧
        (Difference UnitSet.empty (b.subs 16)).elems = [] ∧
        (Difference (b.subs 16) UnitSet.empty).elems = [17] ∧
        ∃ c, b.NotifyAll 16 (Difference UnitSet.empty (b.subs 16))
            (Difference (b.subs 16) UnitSet.empty) = .ok c ∧
          c.trace = b.trace ++ [⟨17, .leave, 2, 1⟩] := by
  refine ⟨by decide, scene_left, rfl, by decide, by decide, ?_⟩
  have hU : scene_left.hasEnter 16 = true := by decide
  have hE : ∀ p ∈ Difference UnitSet.empty (scene_left.subs 16),
      scene_left.hasEnter p = true := by
    intro p hp
    exact absurd ((mem_Difference_iff _ _ p).1 hp).1 (UnitSet.not_mem_empty p)
  have hL : ∀ p ∈ Difference (scene_left.subs 16) UnitSet.empty,
      scene_left.hasLeave p = true := by
    intro p hp
    have hp17 : p = 17 := by
      have : p ∈ [17] := by
        have h := (UnitSet.mem_def _ p).1 hp
        have e : (Difference (scene_left.subs 16) UnitSet.empty).elems = [17] := by decide
        rwa [e] at h
      simpa using this
    subst hp17
    decide
  obtain ⟨c, hrun, _, htr, _⟩ := NotifyAll_spec scene_left 16 _ _ hU hE hL
  refine ⟨c, hrun, ?_⟩
  rw [htr, List.append_assoc]
  congr 1

/-- C6, amended.  When `unit` and the units of `new` are live with an `enter_callback` and the
units of `old = unit.subscribe_set` are live with a `leave_callback`, the diff protocol returns
normally; re-running the diff against the same `new` then gives an empty `enter'`, and a `leave'`
made of the units of `Difference(old, new)` other than `unit`.  When `old` is included in `new`
both are empty and the second call returns the state it was given, so it fires no callback. -/
theorem rerun_diff (a : AOI) (unit : UnitPtr) (new : UnitSet)
    (hU : a.hasEnter unit = true) (hN : ∀ p ∈ new, a.hasEnter p = true)
    (hO : ∀ p ∈ a.subs unit, a.hasLeave p = true) :
    ∃ b, a.NotifyAll unit (Difference new (a.subs unit)) (Difference (a.subs unit) new) = .ok b ∧
      (Difference new (b.subs unit)).elems = [] ∧
      (∀ p, p ∈ Difference (b.subs unit) new ↔ p ∈ Difference (a.subs unit) new ∧ p ≠ unit) ∧
      ((∀ p ∈ a.subs unit, p ∈ new) →
        (Difference (b.subs unit) new).elems = [] ∧
        b.NotifyAll unit (Difference new (b.subs unit)) (Difference (b.subs unit) new) =
          .ok b) := by
  have hE : ∀ p ∈ Difference new (a.subs unit), a.hasEnter p = true :=
    fun p hp => hN p ((mem_Difference_iff _ _ p).1 hp).1
  have hL : ∀ p ∈ Difference (a.subs unit) new, a.hasLeave p = true :=
    fun p hp => hO p ((mem_Difference_iff _ _ p).1 hp).1
  obtain ⟨b, hrun, _, _, hsub⟩ := NotifyAll_spec a unit _ _ hU hE hL
  have henter : (Difference new (b.subs unit)).elems = [] := by
    apply elems_eq_nil
    intro p hp
    rw [mem_Difference_iff, hsub] at hp
    simp only [mem_Difference_iff] at hp
    by_cases hpu : p = unit
    · subst hpu
      tauto
    · tauto
  have hleave : ∀ p, p ∈ Difference (b.subs unit) new ↔
      p ∈ Difference (a.subs unit) new ∧ p ≠ unit := by
    intro p
    rw [mem_Difference_iff, hsub]
    simp only [mem_Difference_iff]
    by_cases hpu : p = unit
    · subst hpu
      tauto
    · tauto
  refine ⟨b, hrun, henter, hleave, ?_⟩
  intro hsubset
  have hnil : (Difference (b.subs unit) new).elems = [] := by
    apply elems_eq_nil
    intro p hp
    have h := ((hleave p).1 hp).1
    rw [mem_Difference_iff] at h
    exact h.2 (hsubset p h.1)
  exact ⟨hnil, NotifyAll_nil b unit _ _ henter hnil⟩

/-- Witness of C6 (amended) on the scenario: running the protocol for unit 1 with the nearby-set
`{unit 2}` and running it again fires nothing the second time. -/
theorem rerun_diff_witness :
    scene.hasEnter 16 = true ∧ (∀ p ∈ only17, scene.hasEnter p = true) ∧
      (∀ p ∈ scene.subs 16, scene.hasLeave p = true) ∧
      ∃ b, scene.NotifyAll 16 (Difference only17 (scene.subs 16))
          (Difference (scene.subs 16) only17) = .ok b ∧
        b.NotifyAll 16 (Difference only17 (b.subs 16)) (Difference (b.subs 16) only17) =
          .ok b := by
  have hnone : ∀ p, ¬ p ∈ scene.subs 16 := by
    intro p hp
    have e : (scene.subs 16).elems = [] := by decide
    have h := (UnitSet.mem_def _ p).1 hp
    rw [e] at h
    exact absurd h (List.not_mem_nil p)
  have h1 : scene.hasEnter 16 = true := by decide
  have h2 : ∀ p ∈ only17, scene.hasEnter p = true := by
    intro p hp
    have hp17 : p = 17 := by simpa [UnitSet.mem_def, only17] using hp
    subst hp17
    decide
  have h3 : ∀ p ∈ scene.subs 16, scene.hasLeave p = true := fun p hp => absurd hp (hnone p)
  obtain ⟨b, hrun, _, _, hagain⟩ := rerun_diff scene 16 only17 h1 h2 h3
  exact ⟨h1, h2, h3, b, hrun, (hagain (fun p hp => absurd hp (hnone p))).2⟩

end AOI

/-! ## Set algebra -/

namespace AOI

/-- C7.  With `enter_set = Difference(new, old)` and `leave_set = Difference(old, new)`, a unit
is in `enter_set`, `leave_set` or `Intersection(old, new)` exactly when it is in `new` or in
`old`, and no unit is in two of the three sets. -/
theorem enter_leave_complete (old new : UnitSet) :
    (∀ u, (u ∈ Difference new old ∨ u ∈ Difference old new ∨ u ∈ Intersection old new) ↔
      (u ∈ new ∨ u ∈ old)) ∧
    (∀ u, ¬ (u ∈ Difference new old ∧ u ∈ Difference old new)) ∧
    (∀ u, ¬ (u ∈ Difference new old ∧ u ∈ Intersection old new)) ∧
    (∀ u, ¬ (u ∈ Difference old new ∧ u ∈ Intersection old new)) := by
  refine ⟨?_, ?_, ?_, ?_⟩ <;> intro u <;>
    simp only [mem_Difference_iff, mem_Intersection_iff] <;> tauto

/-- C8.  A unit is in `Difference(A, B)` exactly when it is in `A` and not in `B`.  (The two
arguments are passed by value and the result is a new set, so neither argument is written.) -/
theorem Difference_spec (A B : UnitSet) (u : UnitPtr) :
    u ∈ Difference A B ↔ u ∈ A ∧ ¬ u ∈ B :=
  mem_Difference_iff A B u

end AOI

/-! ## Bounds checks -/

namespace FloatVal

theorem le_self {w : FloatVal} (h : w ≠ nan) : w.le w = true := by
  cases w <;> simp_all [le]

theorem not_le_of_lt {w x : FloatVal} (h : w.lt x = true) : x.le w = false := by
  cases w <;> cases x <;> simp_all [le, lt]

end FloatVal

namespace AOI

/-- C9, counterexample.  In the empty 100 by 100 world the id 1 is not registered and the
position `(-1, 0)` violates `0 ≤ x`, yet `AddUnit(1, -1, 0, ...)` succeeds. -/
theorem AddUnit_accepts_negative :
    scene0.unit_map_ 1 = none ∧ FloatVal.le FloatVal.zero (.finite (-1)) = false ∧
      (scene0.AddUnit 1 (.finite (-1)) (.finite 0) .host .host).isOk = true := by
  decide

/-- C9, amended.  For an id that is not in the registry, `AddUnit(id, x, y, ...)` succeeds
exactly when `x <= width` and `y <= height` hold as float comparisons; no lower bound is
checked.  In particular it succeeds at `(width, height)` when neither is NaN, and it fails with
an assertion for every `x` greater than `width`. -/
theorem AddUnit_bounds (a : AOI) (id : Int) (enter_callback leave_callback : Callback)
    (hid : a.unit_map_ id = none) :
    (∀ x y, (a.AddUnit id x y enter_callback leave_callback).isOk = true ↔
      (x.le a.width_ = true ∧ y.le a.height_ = true)) ∧
    (a.width_ ≠ FloatVal.nan → a.height_ ≠ FloatVal.nan →
      (a.AddUnit id a.width_ a.height_ enter_callback leave_callback).isOk = true) ∧
    (∀ x y, a.width_.lt x = true →
      a.AddUnit id x y enter_callback leave_callback = .error .assertion) := by
  have main : ∀ x y, (a.AddUnit id x y enter_callback leave_callback).isOk = true ↔
      (x.le a.width_ = true ∧ y.le a.height_ = true) := by
    intro x y
    unfold AddUnit
    by_cases hx : x.le a.width_ = true <;> by_cases hy : y.le a.height_ = true <;>
      simp [hx, hy, hid, Except.isOk, Except.toBool]
  refine ⟨main, ?_, ?_⟩
  · intro hw hh
    exact (main _ _).2 ⟨FloatVal.le_self hw, FloatVal.le_self hh⟩
  · intro x y hlt
    have hx : x.le a.width_ = false := FloatVal.not_le_of_lt hlt
    simp [AddUnit, hx]

/-- Witness of C9 (amended): the id 1 is not registered in the empty 100 by 100 world, and
`AddUnit` succeeds at the corner `(100, 100)`. -/
theorem AddUnit_bounds_witness :
    scene0.unit_map_ 1 = none ∧
      (scene0.AddUnit 1 scene0.width_ scene0.height_ .host .host).isOk = true := by
  have h : scene0.unit_map_ 1 = none := by decide
  exact ⟨h, (AddUnit_bounds scene0 1 .host .host h).2.1 (by decide) (by decide)⟩

/-- C10, counterexample.  The world `wide_world` is 100 wide and 50 high and the id 1 is
present in it, with a live unit.  There `UpdateUnit(1, -1, 0)` is accepted although `0 ≤ x`
fails, and `UpdateUnit(1, 0, 75)` is accepted although `y ≤ height` fails.  The world
`tall_world` is 50 wide and 100 high and the id 1 is present in it, with a live unit.  There
`UpdateUnit(1, 0, 75)` is rejected although `0 ≤ 0 ≤ 50` and `0 ≤ 75 ≤ 100` hold. -/
theorem UpdateUnit_bounds_broken :
    (wide_world.width_ = .finite 100 ∧ wide_world.height_ = .finite 50 ∧
      wide_world.unit_map_ 1 = some 1 ∧ wide_world.live 1 = true) ∧
    (FloatVal.le FloatVal.zero (.finite (-1)) = false ∧
      (wide_world.UpdateUnit 1 (.finite (-1)) (.finite 0)).isOk = true) ∧
    (FloatVal.le (.finite 75) wide_world.height_ = false ∧
      (wide_world.UpdateUnit 1 (.finite 0) (.finite 75)).isOk = true) ∧
    (tall_world.width_ = .finite 50 ∧ tall_world.height_ = .finite 100 ∧
      tall_world.unit_map_ 1 = some 1 ∧ tall_world.live 1 = true) ∧
    (FloatVal.le FloatVal.zero (.finite 0) = true ∧
      FloatVal.le (.finite 0) tall_world.width_ = true ∧
      FloatVal.le FloatVal.zero (.finite 75) = true ∧
      FloatVal.le (.finite 75) tall_world.height_ = true ∧
      (tall_world.UpdateUnit 1 (.finite 0) (.finite 75)).isOk = false) := by
  decide

/-- C10, amended.  `UpdateUnit(id, x, y)` fails with an assertion whenever `x <= width` is false,
and whenever `y` is neither `<= width` nor `<= height`; it returns normally, leaving the state as
it was, whenever `x <= width`, `y <= width` and `y <= height` all hold.  No lower bound is
checked. -/
theorem UpdateUnit_bounds (a : AOI) (id : Int) (x y : FloatVal) :
    (x.le a.width_ = false → a.UpdateUnit id x y = .error .assertion) ∧
    (y.le a.width_ = false → y.le a.height_ = false →
      a.UpdateUnit id x y = .error .assertion) ∧
    (x.le a.width_ = true → y.le a.width_ = true → y.le a.height_ = true →
      a.UpdateUnit id x y = .ok a) := by
  refine ⟨?_, ?_, ?_⟩
  · intro hx
    simp [UpdateUnit, hx]
  · intro hy _
    by_cases hx : x.le a.width_ = true <;> simp [UpdateUnit, hx, hy]
  · intro hx hy _
    simp [UpdateUnit, hx, hy]

/-- Witness of C10 (amended): in the scenario, 100 by 100 with the id 1 present, the position
`(100, 100)` passes the three comparisons and `UpdateUnit(1, 100, 100)` accepts it; the position
`(101, 0)` fails `x <= width` and is rejected. -/
theorem UpdateUnit_bounds_witness :
    scene.unit_map_ 1 = some 16 ∧ scene.live 16 = true ∧
      FloatVal.le (.finite 100) scene.width_ = true ∧
      FloatVal.le (.finite 100) scene.height_ = true ∧
      scene.UpdateUnit 1 (.finite 100) (.finite 100) = .ok scene ∧
      FloatVal.le (.finite 101) scene.width_ = false ∧
      scene.UpdateUnit 1 (.finite 101) (.finite 0) = .error .assertion :=
  ⟨by decide, by decide, by decide, by decide,
    (UpdateUnit_bounds scene 1 (.finite 100) (.finite 100)).2.2 (by decide) (by decide)
      (by decide),
    by decide, (UpdateUnit_bounds scene 1 (.finite 101) (.finite 0)).1 (by decide)⟩

end AOI

/-! ## The registry -/

namespace AOI

theorem AddUnit_ok_inv {a b : AOI} {id : Int} {x y : FloatVal} {e l : Callback} {u : UnitPtr}
    (h : a.AddUnit id x y e l = .ok (b, u)) :
    a.unit_map_ id = none ∧ x.le a.width_ = true ∧ y.le a.height_ = true ∧ u = a.brk ∧
      b.brk = a.brk + 1 ∧ b.trace = a.trace ∧
      (∀ q, b.heap q = if q = a.brk then some (Unit.new id x y e l) else a.heap q) ∧
      (∀ k, b.unit_map_ k = if k = id then some a.brk else a.unit_map_ k) := by
  unfold AddUnit at h
  by_cases hb : (x.le a.width_ && y.le a.height_) = true
  · cases hm : a.unit_map_ id with
    | some p => simp [hb, hm] at h
    | none =>
      simp [hb, hm, map_insert, store] at h
      obtain ⟨hb', hu⟩ := h
      subst hb'
      simp at hb
      refine ⟨rfl, hb.1, hb.2, hu.symm, rfl, rfl, fun q => rfl, fun k => rfl⟩
  · simp [hb] at h

theorem AddUnit_present (a : AOI) (id : Int) (x y : FloatVal) (e l : Callback)
    (h : (a.unit_map_ id).isSome = true) : a.AddUnit id x y e l = .error .assertion := by
  unfold AddUnit
  by_cases hb : (x.le a.width_ && y.le a.height_) = true <;> simp [hb, h]

theorem AddUnit_absent (a : AOI) (id : Int) (x y : FloatVal) (e l : Callback)
    (h : a.unit_map_ id = none) (hx : x.le a.width_ = true) (hy : y.le a.height_ = true) :
    ∃ b, a.AddUnit id x y e l = .ok (b, a.brk) := by
  unfold AddUnit
  simp [h, hx, hy]

theorem RemoveUnit_ok_inv {a b : AOI} {id : Int} (h : a.RemoveUnit id = .ok b) :
    b.brk = a.brk ∧ b.trace = a.trace ∧
      (∀ k, b.unit_map_ k = if k = id then none else a.unit_map_ k) ∧
      ((a.unit_map_ id = none ∨ a.unit_map_ id = some 0) ∧ (∀ q, b.heap q = a.heap q) ∨
        ∃ p, p ≠ 0 ∧ a.unit_map_ id = some p ∧ a.live p = true ∧
          ∀ q, b.heap q = if q = p then none else a.heap q) := by
  unfold RemoveUnit at h
  cases hm : a.unit_map_ id with
  | none =>
    simp [map_index, hm, map_erase] at h
    subst h
    refine ⟨rfl, rfl, ?_, Or.inl ⟨Or.inl rfl, fun q => rfl⟩⟩
    intro k
    by_cases hk : k = id <;> simp [hk, map_erase]
  | some p =>
    by_cases hp : p = 0
    · simp [map_index, hm, map_erase, hp] at h
      subst h
      exact ⟨rfl, rfl, fun k => rfl, Or.inl ⟨Or.inr (by rw [hp]), fun q => rfl⟩⟩
    · cases hh : a.heap p with
      | none => simp [map_index, hm, map_erase, hp, hh] at h
      | some v =>
        simp [map_index, hm, map_erase, hp, hh] at h
        subst h
        exact ⟨rfl, rfl, fun k => rfl, Or.inr ⟨p, hp, rfl, by simp [live, hh], fun q => rfl⟩⟩

theorem RegistryInv_init (w h r : FloatVal) : RegistryInv (init w h r) := by
  refine ⟨by simp [init], ?_, rfl, ?_, ?_, ?_⟩
  · intro p _; rfl
  · intro id p hp; simp [init] at hp
  · intro id p u hp; simp [init] at hp
  · intro p u hp; simp [init] at hp

theorem RegistryInv_AddUnit {a b : AOI} {id : Int} {x y : FloatVal} {e l : Callback}
    {u : UnitPtr} (hinv : RegistryInv a) (h : a.AddUnit id x y e l = .ok (b, u)) :
    RegistryInv b := by
  obtain ⟨hid, _, _, _, hbrk, _, hheap, hmap⟩ := AddUnit_ok_inv h
  have hb0 := hinv.brk_pos
  refine ⟨by rw [hbrk]; exact Nat.succ_ne_zero _, ?_, ?_, ?_, ?_, ?_⟩
  · intro p hp
    rw [hbrk] at hp
    rw [hheap, if_neg (Nat.ne_of_gt hp)]
    exact hinv.fresh p (Nat.le_of_succ_le hp)
  · rw [hheap, if_neg (fun h0 => hb0 h0.symm)]
    exact hinv.null
  · intro k p hp
    rw [hmap] at hp
    rw [hbrk]
    by_cases hk : k = id
    · rw [if_pos hk] at hp
      cases hp
      exact Nat.lt_succ_self _
    · rw [if_neg hk] at hp
      exact Nat.lt_succ_of_lt (hinv.below k p hp)
  · intro k p v hp hv
    rw [hmap] at hp
    rw [hheap] at hv
    by_cases hk : k = id
    · rw [if_pos hk] at hp
      cases hp
      rw [if_pos rfl] at hv
      cases hv
      exact hk.symm
    · rw [if_neg hk] at hp
      have hlt := hinv.below k p hp
      rw [if_neg (Nat.ne_of_lt hlt)] at hv
      exact hinv.entry_id k p v hp hv
  · intro p v hv
    rw [hheap] at hv
    rw [hmap]
    by_cases hp : p = a.brk
    · rw [if_pos hp] at hv
      cases hv
      simp [Unit.new, hp]
    · rw [if_neg hp] at hv
      have hreg := hinv.reg p v hv
      have hne : v.id ≠ id := by
        intro hvid
        rw [hvid, hid] at hreg
        cases hreg
      rw [if_neg hne]
      exact hreg

theorem RegistryInv_RemoveUnit {a b : AOI} {id : Int} (hinv : RegistryInv a)
    (h : a.RemoveUnit id = .ok b) : RegistryInv b := by
  obtain ⟨hbrk, _, hmap, hcase⟩ := RemoveUnit_ok_inv h
  have hsub : ∀ q v, b.heap q = some v → a.heap q = some v := by
    intro q v hv
    rcases hcase with ⟨_, hheap⟩ | ⟨p, _, _, _, hheap⟩
    · rw [hheap] at hv; exact hv
    · rw [hheap] at hv
      by_cases hq : q = p
      · rw [if_pos hq] at hv; cases hv
      · rw [if_neg hq] at hv; exact hv
  have hnone : ∀ q, a.heap q = none → b.heap q = none := by
    intro q hq
    cases hb : b.heap q with
    | none => rfl
    | some v => rw [hsub q v hb] at hq; cases hq
  refine ⟨by rw [hbrk]; exact hinv.brk_pos, ?_, hnone 0 hinv.null, ?_, ?_, ?_⟩
  · intro p hp
    rw [hbrk] at hp
    exact hnone p (hinv.fresh p hp)
  · intro k p hp
    rw [hmap] at hp
    rw [hbrk]
    by_cases hk : k = id
    · rw [if_pos hk] at hp; cases hp
    · rw [if_neg hk] at hp
      exact hinv.below k p hp
  · intro k p v hp hv
    rw [hmap] at hp
    by_cases hk : k = id
    · rw [if_pos hk] at hp; cases hp
    · rw [if_neg hk] at hp
      exact hinv.entry_id k p v hp (hsub p v hv)
  · intro q v hv
    have hreg := hinv.reg q v (hsub q v hv)
    rw [hmap]
    have hne : v.id ≠ id := by
      intro hvid
      rw [hvid] at hreg
      rcases hcase with ⟨hm, _⟩ | ⟨p, _, hm, _, hheap⟩
      · rcases hm with hm | hm
        · rw [hm] at hreg; cases hreg
        · rw [hm] at hreg
          cases hreg
          have h0 := hsub 0 v hv
          rw [hinv.null] at h0
          cases h0
      · rw [hm] at hreg
        cases hreg
        rw [hheap, if_pos rfl] at hv
        cases hv
    rw [if_neg hne]
    exact hreg

end AOI

namespace AOI

theorem calls_cons_ok {a b : AOI} {c : RegCall} {cs : List RegCall}
    (h : a.calls (c :: cs) = .ok b) : ∃ a1, a.call c = .ok a1 ∧ a1.calls cs = .ok b := by
  unfold calls at h
  rw [List.foldlM_cons] at h
  cases h1 : a.call c with
  | error e => simp [h1, bind, Except.bind] at h
  | ok a1 => exact ⟨a1, rfl, by simpa [h1, bind, Except.bind, calls] using h⟩

theorem call_add_inv {a b : AOI} {id : Int} {x y : FloatVal} {e l : Callback}
    (h : a.call (.add id x y e l) = .ok b) : ∃ u, a.AddUnit id x y e l = .ok (b, u) := by
  unfold call at h
  cases hadd : a.AddUnit id x y e l with
  | error f => simp [hadd] at h
  | ok r =>
    obtain ⟨b', u⟩ := r
    simp [hadd] at h
    exact ⟨u, by rw [h]⟩

theorem RegistryInv_call {a b : AOI} {c : RegCall} (hinv : RegistryInv a)
    (h : a.call c = .ok b) : RegistryInv b := by
  cases c with
  | add id x y e l =>
    obtain ⟨u, hadd⟩ := call_add_inv h
    exact RegistryInv_AddUnit hinv hadd
  | remove id => exact RegistryInv_RemoveUnit hinv h

theorem RegistryInv_calls (cs : List RegCall) :
    ∀ a b : AOI, RegistryInv a → a.calls cs = .ok b → RegistryInv b := by
  induction cs with
  | nil =>
    intro a b hinv h
    have e : a = b := by simpa [calls, pure, Except.pure] using h
    exact e ▸ hinv
  | cons c cs ih =>
    intro a b hinv h
    obtain ⟨a1, h1, hrest⟩ := calls_cons_ok h
    exact ih a1 b (RegistryInv_call hinv h1) hrest

theorem call_keeps_unit {a b : AOI} {c : RegCall} {id : Int} {u : UnitPtr} {v : Unit}
    (hinv : RegistryInv a) (hmap : a.unit_map_ id = some u) (hheap : a.heap u = some v)
    (hc : c.id ≠ id) (h : a.call c = .ok b) :
    b.unit_map_ id = some u ∧ b.heap u = some v := by
  have hvid : v.id = id := hinv.entry_id id u v hmap hheap
  cases c with
  | add k x y e l =>
    obtain ⟨w, hadd⟩ := call_add_inv h
    obtain ⟨_, _, _, _, _, _, hh, hm⟩ := AddUnit_ok_inv hadd
    have hk : id ≠ k := fun hk => hc hk.symm
    have hu : u ≠ a.brk := Nat.ne_of_lt (hinv.below id u hmap)
    rw [hm, if_neg hk, hh, if_neg hu]
    exact ⟨hmap, hheap⟩
  | remove k =>
    obtain ⟨_, _, hm, hcase⟩ := RemoveUnit_ok_inv h
    have hk : id ≠ k := fun hk => hc hk.symm
    rw [hm, if_neg hk]
    refine ⟨hmap, ?_⟩
    rcases hcase with ⟨_, hh⟩ | ⟨p, _, hp, _, hh⟩
    · rw [hh]; exact hheap
    · rw [hh]
      have hup : u ≠ p := by
        intro hup
        rw [← hup] at hp
        exact hc ((hinv.entry_id k u v hp hheap).symm.trans hvid)
      rw [if_neg hup]
      exact hheap

theorem calls_keep_unit (id : Int) (u : UnitPtr) (v : Unit) (cs : List RegCall) :
    ∀ a b : AOI, RegistryInv a → a.unit_map_ id = some u → a.heap u = some v →
      (∀ c ∈ cs, c.id ≠ id) → a.calls cs = .ok b →
      RegistryInv b ∧ b.unit_map_ id = some u ∧ b.heap u = some v := by
  induction cs with
  | nil =>
    intro a b hinv hmap hheap _ h
    have e : a = b := by simpa [calls, pure, Except.pure] using h
    subst e
    exact ⟨hinv, hmap, hheap⟩
  | cons c cs ih =>
    intro a b hinv hmap hheap hcs h
    obtain ⟨a1, h1, hrest⟩ := calls_cons_ok h
    obtain ⟨hmap1, hheap1⟩ :=
      call_keeps_unit hinv hmap hheap (hcs c (List.mem_cons_self c cs)) h1
    exact ih a1 b (RegistryInv_call hinv h1) hmap1 hheap1
      (fun k hk => hcs k (List.mem_cons_of_mem c hk)) hrest

theorem get_unit_present {a : AOI} {id : Int} {u : UnitPtr} (h : a.unit_map_ id = some u) :
    a.get_unit id = (a, u) := by
  simp [get_unit, map_index, h]

theorem RemoveUnit_live {a : AOI} {id : Int} {u : UnitPtr} {v : Unit}
    (hinv : RegistryInv a) (hmap : a.unit_map_ id = some u) (hheap : a.heap u = some v) :
    ∃ b, a.RemoveUnit id = .ok b ∧ b.unit_map_ id = none ∧ b.heap u = none := by
  have hu : u ≠ 0 := by
    intro h0
    rw [h0, hinv.null] at hheap
    cases hheap
  have hrun : a.RemoveUnit id = .ok
      { a with
        unit_map_ := map_erase a.unit_map_ id
        heap := fun q => if q = u then none else a.heap q } := by
    simp [RemoveUnit, map_index, hmap, hu, hheap]
  exact ⟨_, hrun, by simp [map_erase], by simp⟩

end AOI

namespace AOI

/-- C11.  `AddUnit` on an id that is in the registry fails with an assertion, whatever the
position, so the existing unit is neither replaced nor joined by a second one.  After any
sequence of `AddUnit`/`RemoveUnit` calls on a freshly constructed world that returned normally,
every live unit is the one the registry holds for its id, and two live units with the same id
are the same unit. -/
theorem AddUnit_unique_ids :
    (∀ (a : AOI) (id : Int) (x y : FloatVal) (e l : Callback),
      (a.unit_map_ id).isSome = true → a.AddUnit id x y e l = .error .assertion) ∧
    (∀ (w h r : FloatVal) (cs : List RegCall) (b : AOI), (init w h r).calls cs = .ok b →
      (∀ p u, b.heap p = some u → b.unit_map_ u.id = some p) ∧
      (∀ p q u v, b.heap p = some u → b.heap q = some v → u.id = v.id → p = q)) := by
  refine ⟨AddUnit_present, ?_⟩
  intro w h r cs b hrun
  have hinv := RegistryInv_calls cs _ b (RegistryInv_init w h r) hrun
  refine ⟨hinv.reg, ?_⟩
  intro p q u v hu hv hid
  have h1 := hinv.reg p u hu
  have h2 := hinv.reg q v hv
  rw [hid, h2] at h1
  exact (Option.some.inj h1).symm

/-- Witness of C11: after adding units 1 and 2, removing unit 1 and adding a unit 1 again, id 2
is in the registry and another `AddUnit(2, ...)` fails; live units with equal ids coincide. -/
theorem AddUnit_unique_ids_witness :
    (world_demo.unit_map_ 2).isSome = true ∧ world0.calls demo_calls = .ok world_demo ∧
      world_demo.AddUnit 2 (.finite 1) (.finite 1) .host .host = .error .assertion ∧
      (∀ p q u v, world_demo.heap p = some u → world_demo.heap q = some v → u.id = v.id →
        p = q) :=
  ⟨by decide, rfl,
    AddUnit_unique_ids.1 world_demo 2 (.finite 1) (.finite 1) .host .host (by decide),
    (AddUnit_unique_ids.2 (.finite 100) (.finite 100) (.finite 10) demo_calls world_demo rfl).2⟩

/-- C12, counterexample.  In the empty world the id 7 is not in the registry, yet
`RemoveUnit(7)` returns normally. -/
theorem silent_RemoveUnit_of_absent_id :
    world0.unit_map_ 7 = none ∧ (world0.RemoveUnit 7).isOk = true := by
  decide

/-- C12, amended.  `RemoveUnit(id)` on an id that is not in the registry returns normally and
leaves the state as it was: no entry, no unit and no callback invocation is added or removed. -/
theorem RemoveUnit_missing (a : AOI) (id : Int) (h : a.unit_map_ id = none) :
    a.RemoveUnit id = .ok a := by
  have hm : map_erase (fun k => if k = id then some 0 else a.unit_map_ k) id = a.unit_map_ := by
    funext k
    by_cases hk : k = id
    · simp [map_erase, hk, h]
    · simp [map_erase, hk]
  simp [RemoveUnit, map_index, h, hm]

/-- Witness of C12 (amended): in the empty world, `RemoveUnit(7)` changes nothing. -/
theorem RemoveUnit_missing_witness :
    world0.unit_map_ 7 = none ∧ world0.RemoveUnit 7 = .ok world0 :=
  ⟨by decide, RemoveUnit_missing world0 7 (by decide)⟩

end AOI

/-! ## Lookup -/

namespace IdSet

theorem id_mem_def (s : IdSet) (i : Int) : i ∈ s ↔ i ∈ s.elems := Iff.rfl

@[simp] theorem id_not_mem_empty (i : Int) : ¬ i ∈ IdSet.empty := by
  simp [id_mem_def, IdSet.empty]

@[simp] theorem id_mem_insert (s : IdSet) (i j : Int) : j ∈ s.insert i ↔ j = i ∨ j ∈ s := by
  simp [id_mem_def, IdSet.insert]

end IdSet

namespace AOI

theorem collect_spec (a : AOI) (l : List UnitPtr) (hl : ∀ p ∈ l, a.live p = true) :
    ∀ acc : IdSet, ∃ ids, l.foldlM (collectId a) acc = .ok ids ∧
      ∀ i, i ∈ ids ↔ i ∈ acc ∨ ∃ p ∈ l, a.idOf p = i := by
  induction l with
  | nil =>
    intro acc
    exact ⟨acc, rfl, by simp⟩
  | cons x xs ih =>
    intro acc
    have hx := hl x (List.mem_cons_self x xs)
    unfold live at hx
    cases hh : a.heap x with
    | none => simp [hh] at hx
    | some u =>
      obtain ⟨ids, hrun, hmem⟩ := ih (fun p hp => hl p (List.mem_cons_of_mem x hp))
        (acc.insert u.id)
      refine ⟨ids, ?_, ?_⟩
      · rw [List.foldlM_cons]
        simp only [collectId, deref, hh, bind, Except.bind, pure, Except.pure]
        exact hrun
      · intro i
        rw [hmem]
        have hidx : a.idOf x = u.id := by simp [idOf, hh]
        simp only [IdSet.id_mem_insert, List.mem_cons, exists_eq_or_imp, hidx]
        constructor
        · rintro ((h | h) | h)
          · exact Or.inr (Or.inl h.symm)
          · exact Or.inl h
          · exact Or.inr (Or.inr h)
        · rintro (h | h | h)
          · exact Or.inl (Or.inr h)
          · exact Or.inl (Or.inl h.symm)
          · exact Or.inr h

theorem collect_fault (a : AOI) (l : List UnitPtr) (hl : ∃ p ∈ l, a.live p = false) :
    ∀ acc : IdSet, l.foldlM (collectId a) acc = .error .invalid_pointer := by
  induction l with
  | nil =>
    obtain ⟨p, hp, _⟩ := hl
    simp at hp
  | cons x xs ih =>
    intro acc
    rw [List.foldlM_cons]
    cases hh : a.heap x with
    | none => simp only [collectId, deref, hh, bind, Except.bind]
    | some u =>
      have hrest : ∃ p ∈ xs, a.live p = false := by
        obtain ⟨p, hp, hdead⟩ := hl
        rcases List.mem_cons.1 hp with hpx | hpx
        · rw [hpx] at hdead
          simp [live, hh] at hdead
        · exact ⟨p, hpx, hdead⟩
      simp only [collectId, deref, hh, bind, Except.bind, pure, Except.pure]
      exact ih hrest (acc.insert u.id)

theorem get_unit_absent {a : AOI} {id : Int} (h : a.unit_map_ id = none) :
    a.get_unit id =
      ({ a with unit_map_ := fun k => if k = id then some 0 else a.unit_map_ k }, 0) := by
  simp [get_unit, map_index, h]

/-- C13, counterexample.  In the empty world the id 7 is not in the registry, yet `get_unit(7)`
hands the null pointer to its caller, and `FindNearbyUnit(7, 10)` over a backend that finds
nothing returns normally. -/
theorem null_pointer_for_absent_id :
    world0.unit_map_ 7 = none ∧ (world0.get_unit 7).2 = 0 ∧
      (FindNearbyUnit backend_none world0 7 (.finite 10)).isOk = true := by
  decide

/-- C13, amended.  `get_unit(id)` on an id that is not in the registry does not fail: it returns
the null pointer.  `FindNearbyUnit(id, range)` then asks the backend about the null pointer,
unchecked.  If the backend faults there, the query ends with that fault.  If the backend returns
a set of live units, the query returns normally with exactly the ids of those units (none when
the backend finds nothing).  If the backend returns an address that holds no unit, the query
ends with an invalid pointer. -/
theorem lookup_missing (a : AOI) (id : Int) (h : a.unit_map_ id = none) :
    (a.get_unit id).2 = 0 ∧
    (∀ backend range e, backend (a.get_unit id).1 0 range = .error e →
      FindNearbyUnit backend a id range = .error e) ∧
    (∀ backend range found, backend (a.get_unit id).1 0 range = .ok found →
      (∀ p ∈ found, a.live p = true) →
      ∃ ids, FindNearbyUnit backend a id range = .ok ((a.get_unit id).1, ids) ∧
        ∀ i, i ∈ ids ↔ ∃ p ∈ found, a.idOf p = i) ∧
    (∀ backend range found, backend (a.get_unit id).1 0 range = .ok found →
      (∃ p ∈ found, a.live p = false) →
      FindNearbyUnit backend a id range = .error .invalid_pointer) := by
  have hg := get_unit_absent h
  have hlive : ∀ p, (a.get_unit id).1.live p = a.live p := by
    intro p
    rw [hg]
    rfl
  have hidOf : ∀ p, (a.get_unit id).1.idOf p = a.idOf p := by
    intro p
    rw [hg]
    rfl
  refine ⟨by rw [hg], ?_, ?_, ?_⟩
  · intro backend range e hb
    rw [hg] at hb
    simp only [FindNearbyUnit, hg, hb, bind, Except.bind]
  · intro backend range found hb hall
    obtain ⟨ids, hrun, hmem⟩ := collect_spec (a.get_unit id).1 found.elems
      (fun p hp => by rw [hlive]; exact hall p hp) IdSet.empty
    refine ⟨ids, ?_, ?_⟩
    · rw [hg] at hb hrun
      simp only [FindNearbyUnit, hg, hb, hrun, bind, Except.bind, pure, Except.pure]
    · intro i
      rw [hmem]
      simp [UnitSet.mem_def, hidOf]
  · intro backend range found hb hdead
    have hrun := collect_fault (a.get_unit id).1 found.elems
      (by
        obtain ⟨p, hp, hd⟩ := hdead
        exact ⟨p, hp, by rw [hlive]; exact hd⟩) IdSet.empty
    rw [hg] at hb hrun
    simp only [FindNearbyUnit, hg, hb, hrun, bind, Except.bind]

/-- Witness of C13 (amended): in the empty world the id 7 is not in the registry and
`get_unit(7)` is the null pointer; over a backend that finds nothing `FindNearbyUnit(7, 10)`
returns no id, and over a backend that returns the address 17, where no unit lives, it ends with
an invalid pointer. -/
theorem lookup_missing_witness :
    world0.unit_map_ 7 = none ∧ (world0.get_unit 7).2 = 0 ∧
      (∃ ids, FindNearbyUnit backend_none world0 7 (.finite 10) =
          .ok ((world0.get_unit 7).1, ids) ∧ ∀ i, ¬ i ∈ ids) ∧
      FindNearbyUnit backend_17 world0 7 (.finite 10) = .error .invalid_pointer := by
  have h0 : world0.unit_map_ 7 = none := by decide
  obtain ⟨hnull, _, hok, hbad⟩ := lookup_missing world0 7 h0
  refine ⟨h0, hnull, ?_, ?_⟩
  · obtain ⟨ids, hrun, hmem⟩ := hok backend_none (.finite 10) UnitSet.empty rfl
      (fun p hp => absurd hp (UnitSet.not_mem_empty p))
    refine ⟨ids, hrun, ?_⟩
    intro i hi
    obtain ⟨p, hp, _⟩ := (hmem i).1 hi
    exact UnitSet.not_mem_empty p hp
  · exact hbad backend_17 (.finite 10) only17 rfl ⟨17, by decide, by decide⟩

end AOI

namespace AOI

/-- C14.  In a state built by registry calls, let `AddUnit(id, x, y, ...)` succeed and return
`u`.  Then `u` is a unit with the given id and position and an empty subscribe set, and
`get_unit(id)` returns `u` without changing the state; after any sequence of
`AddUnit`/`RemoveUnit` calls on other ids that returned normally, `get_unit(id)` still returns
`u`, which is still that unit; and `RemoveUnit(id)` then succeeds, takes the id out of the
registry and releases `u`. -/
theorem lookup_after_AddUnit (a b : AOI) (id : Int) (x y : FloatVal) (e l : Callback)
    (u : UnitPtr) (hinv : RegistryInv a) (hadd : a.AddUnit id x y e l = .ok (b, u)) :
    b.heap u = some ⟨id, x, y, e, l, UnitSet.empty⟩ ∧ b.get_unit id = (b, u) ∧
    (∀ cs c, (∀ k ∈ cs, k.id ≠ id) → b.calls cs = .ok c →
      c.get_unit id = (c, u) ∧ c.heap u = some ⟨id, x, y, e, l, UnitSet.empty⟩ ∧
      ∃ d, c.RemoveUnit id = .ok d ∧ d.unit_map_ id = none ∧ d.heap u = none) := by
  obtain ⟨_, _, _, hu, _, _, hheap, hmap⟩ := AddUnit_ok_inv hadd
  have hinvb := RegistryInv_AddUnit hinv hadd
  have hm : b.unit_map_ id = some u := by rw [hmap, if_pos rfl, hu]
  have hh : b.heap u = some ⟨id, x, y, e, l, UnitSet.empty⟩ := by
    rw [hheap, if_pos hu]
    rfl
  refine ⟨hh, get_unit_present hm, ?_⟩
  intro cs c hcs hrun
  obtain ⟨hinvc, hmc, hhc⟩ := calls_keep_unit id u _ cs b c hinvb hm hh hcs hrun
  exact ⟨get_unit_present hmc, hhc, RemoveUnit_live hinvc hmc hhc⟩

/-- Witness of C14: in the empty world `AddUnit(1, 0, 0, ...)` returns the address 1; after
adding and removing unit 2, `get_unit(1)` still returns it. -/
theorem lookup_after_AddUnit_witness :
    RegistryInv world0 ∧
      world0.AddUnit 1 (.finite 0) (.finite 0) .host .host = .ok (world_one, 1) ∧
      (∀ k ∈ other_calls, k.id ≠ 1) ∧ world_one.calls other_calls = .ok world_one_later ∧
      world_one_later.get_unit 1 = (world_one_later, 1) := by
  have hadd : world0.AddUnit 1 (.finite 0) (.finite 0) .host .host = .ok (world_one, 1) := rfl
  have hother : ∀ k ∈ other_calls, k.id ≠ 1 := by
    intro k hk
    simp only [other_calls, List.mem_cons, List.mem_singleton, List.not_mem_nil, or_false] at hk
    rcases hk with hk | hk <;> subst hk <;> decide
  have hrun : world_one.calls other_calls = .ok world_one_later := rfl
  exact ⟨RegistryInv_init _ _ _, hadd, hother, hrun,
    ((lookup_after_AddUnit world0 world_one 1 (.finite 0) (.finite 0) .host .host 1
      (RegistryInv_init _ _ _) hadd).2.2 other_calls world_one_later hother hrun).1⟩

end AOI

namespace AOI

/-- C16.  Let `id` be in the registry with unit `u`, and let the backend, asked about `u` and
`range`, return a set of live units.  Then `FindNearbyUnit(id, range)` returns normally, leaves
the state as it was, and its result holds exactly the ids of the units the backend returned.
When those units are registered under their ids and differ from `u`, `id` is not in the
result. -/
theorem FindNearbyUnit_ids (backend : AOI → UnitPtr → FloatVal → Except Fault UnitSet)
    (a : AOI) (id : Int) (u : UnitPtr) (range : FloatVal) (found : UnitSet)
    (hid : a.unit_map_ id = some u) (hback : backend a u range = .ok found)
    (hlive : ∀ p ∈ found, a.live p = true) :
    ∃ ids, FindNearbyUnit backend a id range = .ok (a, ids) ∧
      (∀ i, i ∈ ids ↔ ∃ p ∈ found, a.idOf p = i) ∧
      ((∀ p ∈ found, a.registered p = true ∧ p ≠ u) → ¬ id ∈ ids) := by
  obtain ⟨ids, hrun, hmem⟩ := collect_spec a found.elems hlive IdSet.empty
  have hmem' : ∀ i, i ∈ ids ↔ ∃ p ∈ found, a.idOf p = i := by
    intro i
    rw [hmem]
    simp [UnitSet.mem_def]
  refine ⟨ids, ?_, hmem', ?_⟩
  · simp only [FindNearbyUnit, get_unit_present hid, hback, hrun, bind, Except.bind, pure,
      Except.pure]
  · intro hreg hin
    obtain ⟨p, hp, hpid⟩ := (hmem' id).1 hin
    obtain ⟨hr, hpu⟩ := hreg p hp
    unfold registered at hr
    unfold idOf at hpid
    cases hh : a.heap p with
    | none => simp [hh] at hr
    | some v =>
      simp only [hh, decide_eq_true_eq] at hr
      simp only [hh] at hpid
      rw [hpid, hid] at hr
      exact hpu (Option.some.inj hr).symm

/-- Witness of C16 on the scenario: the id 1 belongs to the unit at 16, the backend returns the
unit at 17 for it, and `FindNearbyUnit(1, 10)` returns exactly the id 2. -/
theorem FindNearbyUnit_ids_witness :
    scene.unit_map_ 1 = some 16 ∧ backend_scene scene 16 (.finite 10) = .ok only17 ∧
      (∀ p ∈ only17, scene.live p = true) ∧
      ∃ ids, FindNearbyUnit backend_scene scene 1 (.finite 10) = .ok (scene, ids) ∧
        (∀ i, i ∈ ids ↔ i = 2) ∧ ¬ (1 : Int) ∈ ids := by
  have h1 : scene.unit_map_ 1 = some 16 := by decide
  have h2 : backend_scene scene 16 (.finite 10) = .ok only17 := rfl
  have h17 : ∀ p ∈ only17, p = 17 := by
    intro p hp
    simpa [UnitSet.mem_def, only17] using hp
  have h3 : ∀ p ∈ only17, scene.live p = true := by
    intro p hp
    rw [h17 p hp]
    decide
  obtain ⟨ids, hrun, hmem, hnot⟩ :=
    FindNearbyUnit_ids backend_scene scene 1 16 (.finite 10) only17 h1 h2 h3
  refine ⟨h1, h2, h3, ids, hrun, ?_, ?_⟩
  · intro i
    rw [hmem]
    constructor
    · rintro ⟨p, hp, hpi⟩
      rw [h17 p hp] at hpi
      rw [← hpi]
      decide
    · intro hi
      exact ⟨17, by decide, by rw [hi]; decide⟩
  · apply hnot
    intro p hp
    rw [h17 p hp]
    decide

/-- C19.  Let `id` be in the registry with a live unit `p`.  Then `RemoveUnit(id)` returns
normally; afterwards `id` is not in the registry, every other id maps to what it mapped to, the
trace of callback invocations is what it was, and every unit other than `p` is what it was, its
subscribe set included, so a set that held `p` still holds it. -/
theorem RemoveUnit_frame (a : AOI) (id : Int) (p : UnitPtr)
    (hid : a.unit_map_ id = some p) (hlive : a.live p = true) :
    ∃ b, a.RemoveUnit id = .ok b ∧ b.unit_map_ id = none ∧
      (∀ k, k ≠ id → b.unit_map_ k = a.unit_map_ k) ∧ b.trace = a.trace ∧
      (∀ q, q ≠ p → b.heap q = a.heap q) ∧ (∀ q, q ≠ p → b.subs q = a.subs q) ∧
      (∀ q, q ≠ p → p ∈ a.subs q → p ∈ b.subs q) := by
  unfold live at hlive
  cases hh : a.heap p with
  | none => simp [hh] at hlive
  | some v =>
    by_cases hp : p = 0
    · have hrun : a.RemoveUnit id = .ok { a with unit_map_ := map_erase a.unit_map_ id } := by
        simp [RemoveUnit, map_index, hid, hp]
      refine ⟨_, hrun, by simp [map_erase], ?_, rfl, fun q _ => rfl, fun q _ => rfl,
        fun q _ h => h⟩
      intro k hk
      simp [map_erase, hk]
    · have hrun : a.RemoveUnit id = .ok
          { a with
            unit_map_ := map_erase a.unit_map_ id
            heap := fun q => if q = p then none else a.heap q } := by
        simp [RemoveUnit, map_index, hid, hp, hh]
      have hsubs : ∀ q, q ≠ p →
          subs { a with
            unit_map_ := map_erase a.unit_map_ id
            heap := fun q => if q = p then none else a.heap q } q = a.subs q := by
        intro q hq
        simp [subs, hq]
      refine ⟨_, hrun, by simp [map_erase], ?_, rfl, ?_, hsubs, ?_⟩
      · intro k hk
        simp [map_erase, hk]
      · intro q hq
        simp [hq]
      · intro q hq hin
        rw [hsubs q hq]
        exact hin

/-- Witness of C19 on the scenario after the two units met: removing unit 2 (at 17) fires no
callback and leaves the subscribe set of unit 1 holding the address 17. -/
theorem RemoveUnit_frame_witness :
    scene_met.unit_map_ 2 = some 17 ∧ scene_met.live 17 = true ∧
      ∃ b, scene_met.RemoveUnit 2 = .ok b ∧ b.unit_map_ 2 = none ∧
        b.trace = scene_met.trace ∧ 17 ∈ b.subs 16 := by
  have h1 : scene_met.unit_map_ 2 = some 17 := by decide
  have h2 : scene_met.live 17 = true := by decide
  obtain ⟨b, hrun, hgone, _, htr, _, _, hkeep⟩ := RemoveUnit_frame scene_met 2 17 h1 h2
  exact ⟨h1, h2, b, hrun, hgone, htr, hkeep 16 (by decide) (by decide)⟩

/-- C20, the code at the failing input.  In the empty world the id 7 is not in the registry and
`AddUnit(7, 1, 1, ...)` succeeds.  After `get_unit(7)`, or after `FindNearbyUnit(7, 10)` over a
backend that finds nothing, the registry holds an entry for 7, with the null pointer, and the
same `AddUnit` fails with an assertion. -/
theorem get_unit_writes_registry :
    world0.unit_map_ 7 = none ∧
    (world0.AddUnit 7 (.finite 1) (.finite 1) .host .host).isOk = true ∧
    (world0.get_unit 7).1.unit_map_ 7 = some 0 ∧
    (world0.get_unit 7).1.AddUnit 7 (.finite 1) (.finite 1) .host .host = .error .assertion ∧
    (match FindNearbyUnit backend_none world0 7 (.finite 10) with
      | .ok (b, _) =>
        b.unit_map_ 7 = some 0 ∧
          b.AddUnit 7 (.finite 1) (.finite 1) .host .host = .error .assertion
      | .error _ => False) :=
  ⟨by decide, by decide, by decide, rfl, by decide, rfl⟩

end AOI

/-! ## Notification: absent callbacks, iteration order, self-subscription -/

namespace AOI

theorem enterLoop_complete (unit : UnitPtr) (l : List UnitPtr) (a : AOI)
    (hl : ∀ p ∈ l, a.hasEnter p = true) (hu : l ≠ [] → a.hasEnter unit = true) :
    ∃ b, l.foldlM (enterBody unit) a = .ok b := by
  cases l with
  | nil => exact ⟨a, rfl⟩
  | cons x xs =>
    obtain ⟨b, hrun, _⟩ := enterLoop_spec unit (x :: xs) a (hu (List.cons_ne_nil x xs)) hl
    exact ⟨b, hrun⟩

theorem leaveLoop_complete (unit : UnitPtr) (l : List UnitPtr) (a : AOI)
    (hl : ∀ p ∈ l, a.hasLeave p = true) (hu : l ≠ [] → a.live unit = true) :
    ∃ b, l.foldlM (leaveBody unit) a = .ok b := by
  cases l with
  | nil => exact ⟨a, rfl⟩
  | cons x xs =>
    obtain ⟨b, hrun, _⟩ := leaveLoop_spec unit (x :: xs) a (hu (List.cons_ne_nil x xs)) hl
    exact ⟨b, hrun⟩

theorem NotifyAll_ok_inv {a b : AOI} {unit : UnitPtr} {enter_set leave_set : UnitSet}
    (h : a.NotifyAll unit enter_set leave_set = .ok b) :
    ∃ a1, enter_set.elems.foldlM (enterBody unit) a = .ok a1 ∧
      leave_set.elems.foldlM (leaveBody unit) a1 = .ok b := by
  unfold NotifyAll NotifyEnter NotifyLeave at h
  cases h1 : enter_set.elems.foldlM (enterBody unit) a with
  | error e => simp [h1, bind, Except.bind] at h
  | ok a1 => exact ⟨a1, rfl, by simpa [h1, bind, Except.bind] using h⟩

theorem NotifyAll_sound {a b : AOI} {unit : UnitPtr} {enter_set leave_set : UnitSet}
    (h : a.NotifyAll unit enter_set leave_set = .ok b) :
    skeleton b = skeleton a ∧
      b.trace = a.trace ++ (enter_set.elems.flatMap (a.enterCalls unit) ++
        leave_set.elems.map (a.leaveCall unit)) ∧
      (∀ q r, r ∈ b.subs q ↔
        (r ∈ a.subs q ∨ (q ∈ enter_set ∧ r = unit) ∨ (q = unit ∧ r ∈ enter_set)) ∧
          ¬ (q ∈ leave_set ∧ r = unit)) := by
  obtain ⟨a1, h1, h2⟩ := NotifyAll_ok_inv h
  obtain ⟨hsk1, htr1, _, hsub1⟩ := enterLoop_sound unit _ a a1 h1
  obtain ⟨hsk2, htr2, _, hsub2⟩ := leaveLoop_sound unit _ a1 b h2
  refine ⟨hsk2.trans hsk1, ?_, ?_⟩
  · rw [htr2, htr1, leaveCall_of_skeleton hsk1, List.append_assoc]
  · intro q r
    rw [hsub2, hsub1]
    rfl

theorem NotifyAll_perm_ok {a b : AOI} {unit : UnitPtr} {E E' L L' : UnitSet}
    (hE : E.elems.Perm E'.elems) (hL : L.elems.Perm L'.elems)
    (h : a.NotifyAll unit E L = .ok b) : ∃ b', a.NotifyAll unit E' L' = .ok b' := by
  obtain ⟨a1, h1, h2⟩ := NotifyAll_ok_inv h
  obtain ⟨hsk1, _⟩ := enterLoop_sound unit _ a a1 h1
  obtain ⟨hEall, hEu⟩ := enterLoop_ok_inv unit _ a a1 h1
  obtain ⟨hLall, hLu⟩ := leaveLoop_ok_inv unit _ a1 b h2
  have hne : ∀ {l l' : List UnitPtr}, l.Perm l' → l' ≠ [] → l ≠ [] := by
    intro l l' hp hl' hl
    rw [hl] at hp
    exact hl' (List.Perm.nil_eq hp).symm
  obtain ⟨a1', h1'⟩ := enterLoop_complete unit E'.elems a
    (fun p hp => hEall p (hE.mem_iff.2 hp)) (fun hn => hEu (hne hE hn))
  obtain ⟨hsk1', _⟩ := enterLoop_sound unit _ a a1' h1'
  have hsk : skeleton a1' = skeleton a1 := hsk1'.trans hsk1.symm
  obtain ⟨b', h2'⟩ := leaveLoop_complete unit L'.elems a1'
    (fun p hp => by rw [hasLeave_of_skeleton hsk]; exact hLall p (hL.mem_iff.2 hp))
    (fun hn => by rw [live_of_skeleton hsk]; exact hLu (hne hL hn))
  refine ⟨b', ?_⟩
  simp only [NotifyAll, NotifyEnter, NotifyLeave, h1', bind, Except.bind]
  exact h2'

end AOI

namespace AOI

/-- C15, the code at the failing input.  In the scenario with a third unit (at 18) whose two
callbacks are empty, that unit is live and the other two have their callbacks; yet
`NotifyEnter` with it as the peer, `NotifyEnter` with it as the subject, and `NotifyLeave` with
it as the peer all end with `bad_function_call` instead of returning.  Only `NotifyLeave` with it
as the subject returns, as that call never touches the callbacks of the subject. -/
theorem absent_callback_throws :
    scene_mute.live 18 = true ∧ scene_mute.hasEnter 18 = false ∧
    scene_mute.hasLeave 18 = false ∧ scene_mute.hasEnter 16 = true ∧
    scene_mute.hasEnter 17 = true ∧ scene_mute.hasLeave 17 = true ∧
    scene_mute.NotifyEnter 16 only18 = .error .bad_function_call ∧
    scene_mute.NotifyEnter 18 only17 = .error .bad_function_call ∧
    scene_mute.NotifyLeave 16 only18 = .error .bad_function_call ∧
    (scene_mute.NotifyLeave 18 only17).isOk = true :=
  ⟨by decide, by decide, by decide, by decide, by decide, by decide, rfl, rfl, rfl, by decide⟩

/-- C17.  Let `E'` list the units of `E` in another order and `L'` those of `L`.  If
`NotifyAll(unit, E, L)` returns normally, so does `NotifyAll(unit, E', L')`; the two final states
give every unit the same subscribe set, and the invocations made are in both cases the enter
pairs of each peer followed by the leave calls, the one list being a rearrangement of the
other. -/
theorem NotifyAll_order_independent (a b : AOI) (unit : UnitPtr) (E E' L L' : UnitSet)
    (hE : E.elems.Perm E'.elems) (hL : L.elems.Perm L'.elems)
    (hrun : a.NotifyAll unit E L = .ok b) :
    ∃ b' fired fired', a.NotifyAll unit E' L' = .ok b' ∧
      (∀ q r, r ∈ b'.subs q ↔ r ∈ b.subs q) ∧
      b.trace = a.trace ++ fired ∧ b'.trace = a.trace ++ fired' ∧ fired.Perm fired' ∧
      fired = E.elems.flatMap (fun p =>
          [⟨p, .enter, a.idOf p, a.idOf unit⟩, ⟨unit, .enter, a.idOf unit, a.idOf p⟩]) ++
        L.elems.map (fun p => ⟨p, .leave, a.idOf p, a.idOf unit⟩) ∧
      fired' = E'.elems.flatMap (fun p =>
          [⟨p, .enter, a.idOf p, a.idOf unit⟩, ⟨unit, .enter, a.idOf unit, a.idOf p⟩]) ++
        L'.elems.map (fun p => ⟨p, .leave, a.idOf p, a.idOf unit⟩) := by
  obtain ⟨b', hrun'⟩ := NotifyAll_perm_ok hE hL hrun
  obtain ⟨_, htr, hsub⟩ := NotifyAll_sound hrun
  obtain ⟨_, htr', hsub'⟩ := NotifyAll_sound hrun'
  refine ⟨b', _, _, hrun', ?_, htr, htr', ?_, rfl, rfl⟩
  · intro q r
    rw [hsub, hsub']
    simp only [UnitSet.mem_def, hE.mem_iff, hL.mem_iff]
  · exact List.Perm.append (List.Perm.flatMap_right _ hE) (List.Perm.map _ hL)

/-- Witness of C17 on the scenario with three units: unit 1 meets units 2 and 3, visited in the
order 17, 18 or in the order 18, 17; both runs return and give the same subscribe sets. -/
theorem NotifyAll_order_independent_witness :
    set_17_18.elems.Perm set_18_17.elems ∧
      UnitSet.empty.elems.Perm UnitSet.empty.elems ∧
      scene3.NotifyAll 16 set_17_18 UnitSet.empty = .ok scene3_met ∧
      ∃ b', scene3.NotifyAll 16 set_18_17 UnitSet.empty = .ok b' ∧
        ∀ q r, r ∈ b'.subs q ↔ r ∈ scene3_met.subs q := by
  have hE : set_17_18.elems.Perm set_18_17.elems := List.Perm.swap 18 17 []
  have hrun : scene3.NotifyAll 16 set_17_18 UnitSet.empty = .ok scene3_met := rfl
  obtain ⟨b', _, _, hrun', hsame, _⟩ :=
    NotifyAll_order_independent scene3 scene3_met 16 set_17_18 set_18_17 UnitSet.empty
      UnitSet.empty hE (List.Perm.refl _) hrun
  exact ⟨hE, List.Perm.refl _, hrun, b', hrun', hsame⟩

/-- C18.  Let no unit be in its own subscribe set and let `new` not contain `unit`.  The diff
protocol for `unit` and `new` returns normally when `unit` and the units of `new` are live with
an `enter_callback` and the units of `old = unit.subscribe_set` are live with a
`leave_callback`; and whenever it returns normally, no unit is in its own subscribe set. -/
theorem NotifyAll_no_self_subscription (a : AOI) (unit : UnitPtr) (new : UnitSet)
    (hself : ∀ q, ¬ q ∈ a.subs q) (hne : ¬ unit ∈ new) :
    ((a.hasEnter unit = true ∧ (∀ p ∈ new, a.hasEnter p = true) ∧
        ∀ p ∈ a.subs unit, a.hasLeave p = true) →
      ∃ b, a.NotifyAll unit (Difference new (a.subs unit)) (Difference (a.subs unit) new) =
        .ok b) ∧
    ∀ b, a.NotifyAll unit (Difference new (a.subs unit)) (Difference (a.subs unit) new) = .ok b →
      ∀ q, ¬ q ∈ b.subs q := by
  constructor
  · rintro ⟨hU, hN, hO⟩
    have hE : ∀ p ∈ Difference new (a.subs unit), a.hasEnter p = true :=
      fun p hp => hN p ((mem_Difference_iff _ _ p).1 hp).1
    have hL : ∀ p ∈ Difference (a.subs unit) new, a.hasLeave p = true :=
      fun p hp => hO p ((mem_Difference_iff _ _ p).1 hp).1
    obtain ⟨b, hrun, _⟩ := NotifyAll_spec a unit _ _ hU hE hL
    exact ⟨b, hrun⟩
  · intro b hrun q hq
    obtain ⟨_, _, hsub⟩ := NotifyAll_sound hrun
    rw [hsub] at hq
    rcases hq.1 with h | ⟨_, h⟩ | ⟨h, hin⟩
    · exact hself q h
    · rw [h] at hq
      rcases hq.1 with h' | ⟨hin, _⟩ | ⟨_, hin⟩
      · exact hself unit h'
      · exact hne ((mem_Difference_iff _ _ unit).1 hin).1
      · exact hne ((mem_Difference_iff _ _ unit).1 hin).1
    · rw [h] at hin
      exact hne ((mem_Difference_iff _ _ unit).1 hin).1

/-- Witness of C18 on the scenario: the subscribe sets are empty, `{unit 2}` does not hold unit
1, and after the protocol ran for unit 1 no unit is subscribed to itself. -/
theorem NotifyAll_no_self_subscription_witness :
    (∀ q, ¬ q ∈ scene.subs q) ∧ ¬ 16 ∈ only17 ∧
      ∃ b, scene.NotifyAll 16 (Difference only17 (scene.subs 16))
          (Difference (scene.subs 16) only17) = .ok b ∧
        ∀ q, ¬ q ∈ b.subs q := by
  have hheap : scene.heap = fun q =>
      if q = 17 then some (Unit.new 2 (.finite 5) (.finite 0) .host .host)
      else if q = 16 then some (Unit.new 1 (.finite 0) (.finite 0) .host .host)
      else none := rfl
  have hempty : ∀ q r, ¬ r ∈ scene.subs q := by
    intro q r
    simp only [subs, hheap]
    by_cases h17 : q = 17 <;> by_cases h16 : q = 16 <;>
      simp [h17, h16, UnitSet.mem_def, UnitSet.empty, Unit.new]
  have h0 : ∀ q, ¬ q ∈ scene.subs q := fun q => hempty q q
  have h1 : ¬ 16 ∈ only17 := by decide
  have h2 : ∀ p ∈ only17, scene.hasEnter p = true := by
    intro p hp
    have hp17 : p = 17 := by simpa [UnitSet.mem_def, only17] using hp
    subst hp17
    decide
  obtain ⟨hret, hafter⟩ := NotifyAll_no_self_subscription scene 16 only17 h0 h1
  obtain ⟨b, hrun⟩ := hret ⟨by decide, h2, fun p hp => absurd hp (hempty 16 p)⟩
  exact ⟨h0, h1, b, hrun, hafter b hrun⟩

end AOI
